import Mathlib

/-!
Verification of the CLImate web-content-extraction pipeline
(`src/tools/webScraper/cleanHTML.ts` and
`src/tools/webScraper/semantic/SemanticRanker.ts`).

The TypeScript source is shallowly embedded: pure functions of the source
become Lean functions over `String`/`List Char`, JavaScript numbers are
modelled by `Int`/`ℚ`, fallible code returns `Except`, the mutable
summarization-service singleton becomes explicit state passing, and the
external libraries the source calls (jsdom, Readability, turndown, remark,
compromise, natural, transformers) are abstract deterministic oracle
functions gathered in an environment structure.  JavaScript regular
expression semantics (greedy backtracking, capture groups in `split`,
word boundaries, the `g` scan) are implemented directly for the concrete
regexes the source uses.
-/

set_option autoImplicit false

namespace CLImate

/-! ### JavaScript string primitives -/

/-- The JS `\s` character class (also the set trimmed by `String.prototype.trim`). -/
def isJsWs (c : Char) : Bool :=
  c = ' ' || c = '\t' || c = '\n' || c = '\r' ||
  c.val = 0x0b || c.val = 0x0c || c.val = 0xa0 || c.val = 0x1680 ||
  (0x2000 ≤ c.val && c.val ≤ 0x200a) || c.val = 0x2028 || c.val = 0x2029 ||
  c.val = 0x202f || c.val = 0x205f || c.val = 0x3000 || c.val = 0xfeff

/-- The characters of a list that are not JS whitespace (its "content"). -/
def nonWsL (l : List Char) : List Char := l.filter (fun c => !(isJsWs c))

/-- The non-whitespace characters of a string. -/
def nonWs (s : String) : List Char := nonWsL s.data

/-- JS `String.prototype.trim` on a char list. -/
def jsTrimL (l : List Char) : List Char :=
  ((l.dropWhile isJsWs).reverse.dropWhile isJsWs).reverse

/-- JS `String.prototype.trim`. -/
def jsTrim (s : String) : String := String.mk (jsTrimL s.data)

/-- Splitting a char list on maximal runs of characters satisfying `p`,
the JS semantics of `split(/p+/)`: pieces between separator runs, including
an empty leading (trailing) piece when the list starts (ends) with a
separator, and `[[]]` on the empty list.  Built from the right so that the
kernel can evaluate it. -/
def splitRuns (p : Char → Bool) : List Char → List (List Char)
  | [] => [[]]
  | c :: cs =>
    let r := splitRuns p cs
    if p c then
      match cs with
      | [] => [] :: r
      | d :: _ => if p d then r else [] :: r
    else
      match r with
      | h :: t => (c :: h) :: t
      | [] => [[c]]

/-- JS `s.split(/\s+/)`. -/
def jsSplitWs (s : String) : List String := (splitRuns isJsWs s.data).map String.mk

/-- JS `s.split(/\s+/).length`, the word count used throughout `cleanHTML.ts`. -/
def jsWords (s : String) : Nat := (splitRuns isJsWs s.data).length

/-- Sentence-terminator characters, the class `[.!?]`. -/
def isTerm (c : Char) : Bool := c = '.' || c = '!' || c = '?'

/-- JS `s.split(/[.!?]+/)`. -/
def splitTerms (s : String) : List String := (splitRuns isTerm s.data).map String.mk

/-- Literal (case sensitive) prefix test on char lists. -/
def isPrefixL : List Char → List Char → Bool
  | [], _ => true
  | _ :: _, [] => false
  | a :: as, b :: bs => a = b && isPrefixL as bs

/-- Substring containment on char lists (JS `String.prototype.includes`). -/
def containsSubL (pat : List Char) : List Char → Bool
  | [] => isPrefixL pat []
  | c :: cs => isPrefixL pat (c :: cs) || containsSubL pat cs

/-- JS `s.includes(pat)`. -/
def jsIncludes (s pat : String) : Bool := containsSubL pat.data s.data

/-- JS `s.toLowerCase()` (ASCII, which is all the source relies on). -/
def lowerStr (s : String) : String := String.mk (s.data.map Char.toLower)

/-! ### JS regex word boundaries and keyword scanning

`cleanHTML.ts` counts and tests keyword regexes of the shape
`/\b(w1|w2|...)\b/gi`.  We implement the exact semantics: case-insensitive
literal alternatives tried in order, `\b` boundaries on both sides, and a
left-to-right non-overlapping global scan. -/

/-- The JS `\w` class `[A-Za-z0-9_]`. -/
def wordChar (c : Char) : Bool :=
  ('a' ≤ c && c ≤ 'z') || ('A' ≤ c && c ≤ 'Z') || ('0' ≤ c && c ≤ '9') || c = '_'

/-- Word-char test on an optional character (out of range counts as non-word). -/
def isWordOpt : Option Char → Bool
  | none => false
  | some c => wordChar c

/-- JS `\b`: a boundary lies between `prev` and `next` iff exactly one is a word char. -/
def boundary (prev next : Option Char) : Bool := isWordOpt prev != isWordOpt next

/-- Case-insensitive literal prefix test. -/
def ciPrefix : List Char → List Char → Bool
  | [], _ => true
  | _ :: _, [] => false
  | p :: ps, c :: cs => Char.toLower c = Char.toLower p && ciPrefix ps cs

/-- Does alternative `alt` match at the head of `cs` (with `prev` the previous
character of the subject), including both `\b` boundary checks? -/
def altAt (prev : Option Char) (alt cs : List Char) : Bool :=
  ciPrefix alt cs &&
  boundary prev cs.head? &&
  boundary (cs.take alt.length).getLast? (cs.drop alt.length).head?

/-- First alternative (in the given order) matching at the head of `cs`. -/
def firstAlt (prev : Option Char) (alts : List (List Char)) (cs : List Char) :
    Option (List Char) :=
  alts.find? (fun a => altAt prev a cs)

/-- Global scan counting non-overlapping matches of `/\b(alts)\b/gi`;
`fuel` bounds the number of scan steps (a fuel of the subject length always
suffices, since every step consumes at least one character). -/
def countKwGo (alts : List (List Char)) : Nat → Option Char → List Char → Nat
  | 0, _, _ => 0
  | _, _, [] => 0
  | fuel + 1, prev, c :: cs =>
    match firstAlt prev alts (c :: cs) with
    | some a =>
      if 1 ≤ a.length then
        1 + countKwGo alts fuel ((c :: cs).take a.length).getLast? ((c :: cs).drop a.length)
      else countKwGo alts fuel (some c) cs
    | none => countKwGo alts fuel (some c) cs

/-- JS `(s.match(/\b(alts)\b/gi) || []).length`. -/
def countKeywords (alts : List String) (s : String) : Nat :=
  countKwGo (alts.map String.data) s.data.length none s.data

/-- JS `/\b(alts)\b/gi.test(s)` for a freshly created regex. -/
def hasKeyword (alts : List String) (s : String) : Bool :=
  decide (0 < countKeywords alts s)

/-- Does `/\b[A-Z][a-z]+\b/` match at the head of `l` (with `prev` before it)?
With backtracking, a match at this position exists iff the maximal lowercase
run after the capital is followed by a non-word character (or the end). -/
def properNounAt (prev : Option Char) : List Char → Bool
  | [] => false
  | c :: cs =>
    boundary prev (some c) && c.isUpper &&
    (match cs with
     | [] => false
     | d :: _ =>
       d.isLower && !isWordOpt (cs.drop (cs.takeWhile Char.isLower).length).head?)

/-- Scan for `/\b[A-Z][a-z]+\b/.test`. -/
def hasProperNounAux : Option Char → List Char → Bool
  | _, [] => false
  | prev, c :: cs => properNounAt prev (c :: cs) || hasProperNounAux (some c) cs

/-- JS `/\b[A-Z][a-z]+\b/.test(s)`. -/
def hasProperNoun (s : String) : Bool := hasProperNounAux none s.data

/-! ### The three structural splitters of `intelligentChunk` / `dedupeContent` -/

/-- Analysis of the maximal whitespace run at the head of `l`: the number of
newline characters in it, and the number of characters up to and including the
last newline (`0` when the run contains no newline). -/
def wsRunNl : List Char → Nat × Nat
  | [] => (0, 0)
  | c :: cs =>
    if isJsWs c then
      let nk := wsRunNl cs
      if c = '\n' then
        if nk.1 = 0 then (1, 1) else (nk.1 + 1, nk.2 + 1)
      else
        if nk.1 = 0 then (0, 0) else (nk.1, nk.2 + 1)
    else (0, 0)

/-- JS `s.split(/\n\s*\n/)`: a match starts at a newline and, by greedy
backtracking, extends to the last newline of the whitespace run that follows.
`fuel` bounds the scan steps; at exhaustion the remaining characters are
flushed into the current piece (a fuel of the subject length always suffices). -/
def splitParasGo : Nat → List Char → List Char → List (List Char)
  | 0, l, acc => [acc.reverse ++ l]
  | _ + 1, [], acc => [acc.reverse]
  | fuel + 1, c :: cs, acc =>
    if c = '\n' ∧ 1 ≤ (wsRunNl cs).1 then
      acc.reverse :: splitParasGo fuel (cs.drop (wsRunNl cs).2) []
    else splitParasGo fuel cs (c :: acc)

/-- JS `s.split(/\n\s*\n/)`. -/
def splitParas (s : String) : List String :=
  (splitParasGo s.data.length s.data []).map String.mk

/-- Is the optional character a sentence terminator? -/
def isTermOpt : Option Char → Bool
  | none => false
  | some c => isTerm c

/-- JS `s.split(/(?<=[.!?])\s+/)`: split at maximal whitespace runs whose
preceding character is a sentence terminator.  `fuel` bounds the scan steps;
at exhaustion the remaining characters are flushed into the current piece. -/
def splitSentGo : Nat → Option Char → List Char → List Char → List (List Char)
  | 0, _, l, acc => [acc.reverse ++ l]
  | _ + 1, _, [], acc => [acc.reverse]
  | fuel + 1, prev, c :: cs, acc =>
    if isJsWs c ∧ isTermOpt prev = true then
      acc.reverse :: splitSentGo fuel (some c) (cs.dropWhile isJsWs) []
    else splitSentGo fuel (some c) cs (c :: acc)

/-- JS `s.split(/(?<=[.!?])\s+/)`. -/
def splitSent (s : String) : List String :=
  (splitSentGo s.data.length none s.data []).map String.mk

/-- Backtracking search for the `\s+[^\n]+\n` tail of the header pattern
`\n(#{1,6}\s+[^\n]+)\n`, trying `\s+` lengths `t, t-1, ..., 1` (greedy).
Returns `(t, body, rest)` with `l2.drop t = body ++ '\n' :: rest`. -/
def tryHeaderT (l2 : List Char) : Nat → Option (Nat × List Char × List Char)
  | 0 => none
  | t + 1 =>
    match l2.drop (t + 1) with
    | [] => tryHeaderT l2 t
    | c :: _ =>
      if c = '\n' then tryHeaderT l2 t
      else
        let body := (l2.drop (t + 1)).takeWhile (fun d => d ≠ '\n')
        match (l2.drop (t + 1)).dropWhile (fun d => d ≠ '\n') with
        | '\n' :: rest => some (t + 1, body, rest)
        | _ => tryHeaderT l2 t

/-- Match of the regex `\n(#{1,6}\s+[^\n]+)\n` at the head of `l`; on success,
returns the captured group and the remainder of the subject after the match.
`#{1,6}` can only succeed on a full hash run of length 1–6 (a longer run makes
the following `\s+` fail under backtracking). -/
def matchHeaderAt (l : List Char) : Option (List Char × List Char) :=
  match l with
  | [] => none
  | c :: l1 =>
    if c = '\n' then
      let h := (l1.takeWhile (fun d => d = '#')).length
      if 1 ≤ h ∧ h ≤ 6 then
        let l2 := l1.drop h
        match tryHeaderT l2 (l2.takeWhile isJsWs).length with
        | some (t, body, rest) => some (l1.take h ++ l2.take t ++ body, rest)
        | none => none
      else none
    else none

/-- JS `s.split(/\n(#{1,6}\s+[^\n]+)\n/)` over char lists: pieces between
matches, with each captured group inserted between its neighbouring pieces.
`fuel` bounds the scan steps; at exhaustion the remaining characters are
flushed into the current piece. -/
def splitHeadersGo : Nat → List Char → List Char → List (List Char)
  | 0, l, acc => [acc.reverse ++ l]
  | _ + 1, [], acc => [acc.reverse]
  | fuel + 1, c :: cs, acc =>
    match matchHeaderAt (c :: cs) with
    | some (cap, rest) => acc.reverse :: cap :: splitHeadersGo fuel rest []
    | none => splitHeadersGo fuel cs (c :: acc)

/-- JS `s.split(/\n(#{1,6}\s+[^\n]+)\n/)`. -/
def splitHeaders (s : String) : List String :=
  (splitHeadersGo s.data.length s.data []).map String.mk

/-- JS `s.split(sep)` for a literal (non-regex, nonempty) separator.  `fuel`
bounds the scan steps; at exhaustion the remaining characters are flushed. -/
def splitLitGo (sep : List Char) : Nat → List Char → List Char → List (List Char)
  | 0, l, acc => [acc.reverse ++ l]
  | _ + 1, [], acc => [acc.reverse]
  | fuel + 1, c :: cs, acc =>
    if isPrefixL sep (c :: cs) then
      acc.reverse :: splitLitGo sep fuel ((c :: cs).drop sep.length) []
    else splitLitGo sep fuel cs (c :: acc)

/-- JS `s.split(sep)` for a literal separator string. -/
def jsSplitLit (s sep : String) : List String :=
  (splitLitGo sep.data s.data.length s.data []).map String.mk

/-! ### `intelligentChunk` (cleanHTML.ts lines 1230–1342) -/

/-- `currentChunk + (currentChunk ? '\n\n' : '') + part`. -/
def joinNN (cc p : String) : String := if cc = "" then p else cc ++ "\n\n" ++ p

/-- `sentenceChunk + (sentenceChunk ? ' ' : '') + sentence`. -/
def joinSp (cc p : String) : String := if cc = "" then p else cc ++ " " ++ p

/-- `if (chunk) subChunks.push(chunk)`. -/
def pushIf (cc : String) (out : List String) : List String :=
  if cc = "" then out else out ++ [cc]

/-- The header-boundary greedy packing loop of `intelligentChunk`
(source lines 1260–1282). -/
def packPartsGo (maxW : Nat) : List String → String → List String → List String
  | [], cc, out => pushIf cc out
  | p :: ps, cc, out =>
    if jsTrim p = "" then packPartsGo maxW ps cc out
    else
      let pot := joinNN cc p
      if jsWords pot ≤ maxW then packPartsGo maxW ps pot out
      else packPartsGo maxW ps p (pushIf cc out)

/-- The sentence-boundary packing loop of `intelligentChunk`
(source lines 1305–1325). -/
def packSentencesGo (maxW : Nat) : List String → String → List String → List String
  | [], sc, out => pushIf sc out
  | s :: ss, sc, out =>
    let pot := joinSp sc s
    if jsWords pot ≤ maxW then packSentencesGo maxW ss pot out
    else packSentencesGo maxW ss s (pushIf sc out)

/-- Sentence packing of one oversized paragraph. -/
def packSentences (maxW : Nat) (para : String) : List String :=
  packSentencesGo maxW (splitSent para) "" []

/-- The paragraph-boundary packing loop of `intelligentChunk` (source lines
1284–1335).  When an oversized paragraph is sentence-packed, the source does
not reset `currentChunk`, so a previously pushed chunk can be carried over and
emitted again; the model reproduces this. -/
def packParasGo (maxW : Nat) : List String → String → List String → List String
  | [], cc, out => pushIf cc out
  | p :: ps, cc, out =>
    if jsTrim p = "" then packParasGo maxW ps cc out
    else
      let pot := joinNN cc p
      if jsWords pot ≤ maxW then packParasGo maxW ps pot out
      else
        let out1 := pushIf cc out
        if maxW < jsWords p then
          packParasGo maxW ps cc (out1 ++ packSentences maxW p)
        else packParasGo maxW ps p out1

/-- Splitting one oversized major section: header boundaries first, else
paragraph (and, within an oversized paragraph, sentence) boundaries. -/
def chunkSection (maxW : Nat) (trimmed : String) : List String :=
  let hs := splitHeaders trimmed
  if 1 < hs.length then packPartsGo maxW hs "" []
  else packParasGo maxW (splitParas trimmed) "" []

/-- The per-section body of the `majorSections.forEach` loop of
`intelligentChunk`: skip an empty section, keep a fitting section whole,
split an oversized one. -/
def chunkStep (maxW : Nat) (acc : List String) (sec : String) : List String :=
  let trimmed := jsTrim sec
  if trimmed = "" then acc
  else if jsWords trimmed ≤ maxW then acc ++ [trimmed]
  else acc ++ chunkSection maxW trimmed

/-- The final `chunk.trim().length > 0` filter of `intelligentChunk`. -/
def keepChunk (c : String) : Bool := 0 < (jsTrim c).length

/-- `intelligentChunk(markdown, maxChunkWords)` (source lines 1230–1342).
The `!markdown` guard returns `[]` on the empty string; the `typeof` guard is
vacuous in the model. -/
def intelligentChunk (markdown : String) (maxChunkWords : Nat) : List String :=
  if markdown = "" then []
  else
    let chunks := (jsSplitLit markdown "\n---\n").foldl (chunkStep maxChunkWords) []
    chunks.filter keepChunk

/-- The concatenated non-whitespace content of a list of strings, the measure
in which chunking is shown to lose nothing. -/
def contentJoin (l : List String) : List Char := (l.map nonWs).flatten

/-! ### `assessContentQuality` (cleanHTML.ts lines 1141–1228) -/

def promotionalWords : List String :=
  ["subscribe", "follow", "buy now", "click here", "sign up", "download",
   "register", "join now"]

def navigationWords : List String :=
  ["home", "about", "contact", "menu", "search", "login", "profile", "settings"]

def metadataWords : List String :=
  ["posted", "updated", "published", "tags", "categories", "share", "tweet", "like"]

def loadingWords : List String :=
  ["loading", "please wait", "error", "404", "not found", "unavailable"]

def informationalWords : List String :=
  ["analysis", "data", "study", "research", "report", "statistics", "findings",
   "results"]

def factualWords : List String :=
  ["according to", "based on", "study shows", "data indicates",
   "research suggests"]

/-- Number of distinct elements of a list (JS `new Set(l).size`). -/
def countDistinct : List String → Nat
  | [] => 0
  | x :: xs => (if x ∈ xs then 0 else 1) + countDistinct xs

/-- The distinct elements of a list (order irrelevant for its uses below). -/
def uniqList : List String → List String
  | [] => []
  | x :: xs => if x ∈ xs then uniqList xs else x :: uniqList xs

/-! ### A small JS `String.prototype.replace(regex, ...)` engine

A rule inspects the previous original character (for `\b` lookarounds) and the
current suffix, and returns the replacement plus the number of characters
consumed (≥ 1).  `runRepl` performs the left-to-right non-overlapping global
scan of a `/.../g` replace; matching is always against the original string,
as in JS. -/

def ReplRule := Option Char → List Char → Option (List Char × Nat)

def runReplGo (rule : ReplRule) : Nat → Option Char → List Char → List Char
  | 0, _, l => l
  | _ + 1, _, [] => []
  | fuel + 1, prev, c :: cs =>
    match rule prev (c :: cs) with
    | some (rep, n) =>
      if 1 ≤ n then
        rep ++ runReplGo rule fuel ((c :: cs).take n).getLast? ((c :: cs).drop n)
      else c :: runReplGo rule fuel (some c) cs
    | none => c :: runReplGo rule fuel (some c) cs

def runRepl (rule : ReplRule) (s : String) : String :=
  String.mk (runReplGo rule s.data.length none s.data)

/-- Rule for `/\b(alts)\b/gi` with the replacement computed from the matched
original slice. -/
def kwRule (alts : List (List Char)) (mk : List Char → List Char) : ReplRule :=
  fun prev cs =>
    match firstAlt prev alts cs with
    | some a => some (mk (cs.take a.length), a.length)
    | none => none

/-- `s.replace(/\b(alts)\b/gi, '')`. -/
def applyKwDelete (alts : List String) (s : String) : String :=
  runRepl (kwRule (alts.map String.data) (fun _ => [])) s

/-- `s.replace(/\b(alts)\b/gi, rep)` for a constant replacement. -/
def applyKwConst (alts : List String) (rep : String) (s : String) : String :=
  runRepl (kwRule (alts.map String.data) (fun _ => rep.data)) s

/-- `s.replace(/\bpre (alt1|...)\b/gi, '$1')`: drop the first `k` characters
of the matched original slice. -/
def applyKwDropPrefix (alts : List String) (k : Nat) (s : String) : String :=
  runRepl (kwRule (alts.map String.data) (fun m => m.drop k)) s

/-- Rule for a run of a single character `ch` of length ≥ `minLen`, replaced
by `rep`; with `lineStart` it only fires at the start of a line (the `^...m`
forms `/^\*{2,}/gm` and `/^[·•]/gm`). -/
def charRunRule (ch : Char) (minLen : Nat) (rep : List Char) (lineStart : Bool) : ReplRule :=
  fun prev cs =>
    let atStart := prev = none ∨ prev = some '\n'
    if (!lineStart ∨ atStart) then
      match cs with
      | c :: _ =>
        if c = ch then
          let run := (cs.takeWhile (fun d => d = ch)).length
          if minLen ≤ run then some (rep, run) else none
        else none
      | [] => none
    else none

/-- `/[ \t]+\n/g → '\n'`. -/
def ruleTrailWsNl : ReplRule := fun _ cs =>
  let run := (cs.takeWhile (fun d => d = ' ' ∨ d = '\t')).length
  if 1 ≤ run then
    match cs.drop run with
    | '\n' :: _ => some (['\n'], run + 1)
    | _ => none
  else none

/-- `/^[·•]/gm → '*'`. -/
def ruleBullet : ReplRule := fun prev cs =>
  if prev = none ∨ prev = some '\n' then
    match cs with
    | c :: _ => if c = '·' ∨ c = '•' then some (['*'], 1) else none
    | [] => none
  else none

/-- `/\n\s*\n\s*\n/g → '\n\n'`: needs at least two more newlines in the
whitespace run after the leading one; greedy backtracking ends the match at
the last newline of that run. -/
def ruleNl3Ws : ReplRule := fun _ cs =>
  match cs with
  | '\n' :: rest =>
    if 2 ≤ (wsRunNl rest).1 then some (['\n', '\n'], 1 + (wsRunNl rest).2) else none
  | _ => none

/-- `/\s*,\s*/g → ', '` (and the `.` variant below). -/
def rulePunctSpacing (p : Char) (rep : List Char) : ReplRule := fun _ cs =>
  let t1 := (cs.takeWhile isJsWs).length
  match cs.drop t1 with
  | c :: rest =>
    if c = p then
      let t2 := (rest.takeWhile isJsWs).length
      some (rep, t1 + 1 + t2)
    else none
  | [] => none

/-- `/x\s*x/g → 'x'` for `x` a punctuation character (`\.\s*\.` and `,\s*,`). -/
def rulePunctPair (p : Char) : ReplRule := fun _ cs =>
  match cs with
  | c :: rest =>
    if c = p then
      let t := (rest.takeWhile isJsWs).length
      match rest.drop t with
      | d :: _ => if d = p then some ([p], 1 + t + 1) else none
      | [] => none
    else none
  | [] => none

/-- `s.replace(/\s+/g, ' ')` on a char list. -/
def collapseWs : List Char → List Char
  | [] => []
  | c :: cs =>
    if isJsWs c then
      match cs with
      | d :: _ => if isJsWs d then collapseWs cs else ' ' :: collapseWs cs
      | [] => [' ']
    else c :: collapseWs cs

/-- Map every character of a string. -/
def mapChars (f : Char → Char) (s : String) : String := String.mk (s.data.map f)

/-- The ASCII apostrophe character. -/
def apos : Char := Char.ofNat 39

/-- `prettyWhitespace(markdown)` (source lines 909–920): the sequence of
whitespace / punctuation normalization replaces. -/
def prettyWhitespace (markdown : String) : String :=
  let s1 := runRepl ruleTrailWsNl markdown
  let s2 := runRepl (charRunRule '\n' 3 ['\n', '\n'] false) s1
  let s3 := runRepl (charRunRule '*' 2 ['*'] true) s2
  let s4 := runRepl ruleBullet s3
  let s5 := mapChars (fun c => if c = '“' ∨ c = '”' then '"' else c) s4
  let s6 := mapChars (fun c => if c = '‘' ∨ c = '’' then apos else c) s5
  let s7 := mapChars (fun c => if c = '—' ∨ c = '–' then '-' else c) s6
  let s8 := mapChars (fun c => if c.val = 0x202f then ' ' else c) s7
  runRepl (charRunRule '.' 3 ['…'] false) s8

/-! ### `dedupeContent` (source lines 838–907) -/

/-- Join a list of strings with a separator (JS `Array.prototype.join`). -/
def joinWith (sep : String) : List String → String
  | [] => ""
  | [x] => x
  | x :: xs => x ++ sep ++ joinWith sep xs

/-- The normalization used for dedup comparison and similarity scoring:
lowercase, `[^\w\s]` → space, collapse whitespace, trim. -/
def normalizeText (s : String) : String :=
  jsTrim (String.mk (collapseWs ((lowerStr s).data.map
    (fun c => if wordChar c || isJsWs c then c else ' '))))

/-- JS `s.startsWith(pre)`. -/
def strStarts (s pre : String) : Bool := isPrefixL pre.data s.data

/-- `uniqueSentences.join('. ').replace(/\.\s*$/, '')`. -/
def stripDotWsEnd (s : String) : String :=
  let rev := s.data.reverse
  let wsStripped := rev.dropWhile isJsWs
  match wsStripped with
  | '.' :: rest => String.mk rest.reverse
  | _ => s

/-- The inner sentence-dedup loop: returns the surviving sentences of one
paragraph and the updated global seen-sentence set. -/
def pickSentences : List String → List String → List String × List String
  | [], seen => ([], seen)
  | s :: ss, seen =>
    let ns := normalizeText s
    if 20 < ns.length ∧ ns ∉ seen then
      let r := pickSentences ss (seen ++ [ns])
      (s :: r.1, r.2)
    else pickSentences ss seen

/-- The paragraph loop of `dedupeContent`, carrying the seen-paragraph and
seen-sentence sets. -/
def dedupeGo : List String → List String → List String → List String → List String
  | [], _, _, ups => ups
  | p :: ps, seenC, seenS, ups =>
    let trimmed := jsTrim p
    if trimmed = "" then dedupeGo ps seenC seenS ups
    else if strStarts trimmed "#" || strStarts trimmed "**" || strStarts trimmed "```" then
      dedupeGo ps seenC seenS (ups ++ [trimmed])
    else
      let normalized := normalizeText trimmed
      if normalized ∈ seenC then dedupeGo ps seenC seenS ups
      else
        let sentences := ((splitTerms trimmed).map jsTrim).filter (fun s => 10 < s.length)
        let picked := pickSentences sentences seenS
        if picked.1 ≠ [] then
          let rebuilt := stripDotWsEnd (joinWith ". " picked.1) ++ "."
          dedupeGo ps (seenC ++ [normalized]) picked.2 (ups ++ [rebuilt])
        else dedupeGo ps seenC picked.2 ups

/-- `dedupeContent(markdown)` (source lines 838–907). -/
def dedupeContent (markdown : String) : String :=
  joinWith "\n\n" (dedupeGo (splitParas markdown) [] [] [])

/-- `assessContentQuality(text)` (source lines 1141–1228): heuristic 0–100
quality score; whitespace-only input short-circuits to `0`. -/
def assessContentQuality (text : String) : Int :=
  let trimmed := jsTrim text
  if trimmed = "" then 0
  else
    let wordCount := jsWords trimmed
    let s1 : Int := 50 +
      (if 30 ≤ wordCount ∧ wordCount ≤ 300 then 20
       else if 10 ≤ wordCount ∧ wordCount < 30 then 10
       else if wordCount < 10 then -25
       else if 500 < wordCount then -10
       else 0)
    let hasNumbers := trimmed.data.any Char.isDigit
    let hasProper := hasProperNoun trimmed
    let hasComplete := trimmed.data.any isTerm
    let sentenceCount := (splitTerms trimmed).length - 1
    let s2 := s1 + (if hasNumbers then 10 else 0) + (if hasProper then 10 else 0) +
      (if hasComplete ∧ 2 ≤ sentenceCount then 15 else 0)
    let words := jsSplitWs (lowerStr trimmed)
    -- vocabularyRatio = uniqueWords.size / wordCount; the comparisons with
    -- 0.7 and 0.3 are stated cross-multiplied to stay in exact integers
    let s3 := s2 +
      (if 7 * wordCount < 10 * countDistinct words then 10
       else if 10 * countDistinct words < 3 * wordCount then -15
       else 0)
    let s4 := s3 - countKeywords promotionalWords trimmed * 8 -
      countKeywords navigationWords trimmed * 6 -
      countKeywords metadataWords trimmed * 4 -
      countKeywords loadingWords trimmed * 15
    let longWords := words.filter (fun w => 3 < w.length)
    -- count > Math.max(3, wordCount * 0.1), cross-multiplied by 10
    let repetitive := ((uniqList longWords).filter
        (fun w => max 30 wordCount < 10 * longWords.count w)).foldl
      (fun a w => a + longWords.count w) 0
    -- repetitiveWords > wordCount * 0.3, cross-multiplied by 10
    let s5 := s4 + (if 3 * wordCount < 10 * repetitive then -20 else 0)
    let s6 := s5 + (if hasKeyword informationalWords trimmed then 8 else 0) +
      (if hasKeyword factualWords trimmed then 10 else 0)
    max 0 (min 100 s6)

/-! ### Environment of external library oracles

Everything the pipeline delegates to external libraries (jsdom, Readability,
turndown, remark, compromise, natural, the transformers pipeline) is modelled
as a deterministic function supplied in an environment.  A summarizer backend
function receives the text, the generation parameters and the attempt index,
and returns the call duration in milliseconds together with its outcome. -/

structure SummParams where
  max_length : Int
  min_length : Int
  no_repeat_ngram_size : Nat
  do_sample : Bool
  early_stopping : Bool
deriving DecidableEq

def SummFn := String → SummParams → Nat → Nat × Except String String

/-- The readability-style extraction result. -/
structure Article where
  title : String
  content : String
  textContent : String
deriving DecidableEq

/-- A structured-data item (JSON-LD or microdata) as used by the context line. -/
structure StructuredItem where
  isJsonLd : Bool
  name : Option String
  description : Option String
  atType : Option String

/-- A DOM candidate element, as seen by the content-region scorer. -/
structure ElementInfo where
  tagName : String
  className : String
  id : String
  textContent : String
  innerHTMLStr : String
  linkTextLen : Nat
  hasTables : Bool
  hasItemscope : Bool
  hasJsonLd : Bool

structure Env where
  parseBodyDom : String → String → String
  domRemoveAll : String → String → String
  bodyInnerHTML : String → String
  turndown : String → String
  readability : String → String → Option Article
  schemaItems : String → List StructuredItem
  candidates : String → List ElementInfo
  docTitle : String → String
  remarkProcess : String → Option String
  tokenize : String → List String
  sentTokenize : String → List String
  stem : String → String
  jaroWinkler : String → String → ℚ
  nlpSentences : String → List String
  nlpPeople : String → List String
  nlpPlaces : String → List String
  nlpOrgs : String → List String
  nlpNumbers : String → List String
  nlpDates : String → List String
  nlpMoney : String → List String
  nlpPercentages : String → List String
  nlpQuotations : String → List String
  nlpNounPairs : String → List String
  nlpVerbCount : String → Nat
  nlpListCount : String → Nat
  loadModel : String → Nat × Option SummFn

/-! ### `NaturalNLPAnalyzer` (source lines 16–257) -/

structure NLPQuality where
  readabilityScore : ℚ
  keywordDensity : ℚ
  sentimentScore : ℚ
  informativeness : ℚ
  overallQuality : ℚ

def positiveWordList : List String :=
  ["good", "great", "excellent", "amazing", "wonderful", "fantastic", "best",
   "love", "perfect", "outstanding"]

def negativeWordList : List String :=
  ["bad", "terrible", "awful", "horrible", "worst", "hate", "disappointing",
   "poor", "failed", "broken"]

def informativeWordList : List String :=
  ["research", "study", "analysis", "data", "findings", "results", "according",
   "evidence", "statistics", "report", "survey"]

/-- Number of runs matching `/[aeiouy]+/gi` in a word. -/
def vowelRuns (w : String) : Nat :=
  let isV (c : Char) : Bool :=
    let d := c.toLower
    d = 'a' ∨ d = 'e' ∨ d = 'i' ∨ d = 'o' ∨ d = 'u' ∨ d = 'y'
  ((splitRuns (fun c => !(isV c)) w.data).filter (fun r => r ≠ [])).length

/-- `estimateAvgSyllables(tokens)` (source lines 245–256). -/
def estimateAvgSyllables (tokens : List String) : ℚ :=
  if tokens = [] then 0
  else ((tokens.map (fun w => max 1 (vowelRuns w))).foldl (· + ·) 0 : ℚ) / tokens.length

/-- First occurrences of a list of strings, in order (JS `Map` insertion
order / `Set` iteration order). -/
def firstOccs : List String → List String
  | [] => []
  | x :: xs => x :: (firstOccs xs).filter (fun y => y ≠ x)

/-- Stable insertion (descending by the `Nat` key) used to model the stable
`Array.prototype.sort((a, b) => b[1] - a[1])`. -/
def insertDescNat (x : String × Nat) : List (String × Nat) → List (String × Nat)
  | [] => [x]
  | y :: ys => if x.2 ≤ y.2 then y :: insertDescNat x ys else x :: y :: ys

def sortDescNat (l : List (String × Nat)) : List (String × Nat) :=
  l.foldl (fun acc x => insertDescNat x acc) []

/-- Stable insertion, descending by a `ℚ` key. -/
def insertDescQ (x : String × ℚ) : List (String × ℚ) → List (String × ℚ)
  | [] => [x]
  | y :: ys => if x.2 ≤ y.2 then y :: insertDescQ x ys else x :: y :: ys

def sortDescQ (l : List (String × ℚ)) : List (String × ℚ) :=
  l.foldl (fun acc x => insertDescQ x acc) []

/-- `NaturalNLPAnalyzer.analyzeContentQuality(text)` (source lines 20–183). -/
def analyzeContentQuality (env : Env) (text : String) : NLPQuality :=
  if (jsTrim text).length < 50 then ⟨0, 0, 0, 0, 0⟩
  else
    let tokens := env.tokenize (lowerStr text)
    let sentences := env.sentTokenize text
    let avgWordsPerSentence : ℚ := (tokens.length : ℚ) / (max sentences.length 1 : ℚ)
    let avgSyllablesPerWord := estimateAvgSyllables tokens
    let readabilityScore : ℚ :=
      max 0 ((206835 : ℚ) / 1000 - (1015 : ℚ) / 1000 * avgWordsPerSentence -
        (846 : ℚ) / 10 * avgSyllablesPerWord)
    let stemmedTokens := tokens.map env.stem
    let meaningful := stemmedTokens.filter (fun t => 3 < t.length)
    let freq := (firstOccs meaningful).map (fun w => (w, meaningful.count w))
    let topWords := (sortDescNat freq).take 10
    let keywordDensity : ℚ :=
      if 0 < meaningful.length then
        ((topWords.map Prod.snd).foldl (· + ·) 0 : ℚ) / (meaningful.length : ℚ)
      else 0
    let positiveCount := (stemmedTokens.filter (fun t => t ∈ positiveWordList)).length
    let negativeCount := (stemmedTokens.filter (fun t => t ∈ negativeWordList)).length
    let sentimentScore : ℚ :=
      if 0 < stemmedTokens.length then
        max (-1) (min 1 (((positiveCount : ℚ) - (negativeCount : ℚ)) / (stemmedTokens.length : ℚ)))
      else 0
    let informativeCount := (tokens.filter (fun t =>
      informativeWordList.any (fun w => env.stem w = env.stem t))).length
    let informativeness : ℚ :=
      min 1 ((informativeCount : ℚ) / max ((tokens.length : ℚ) / 10) 1)
    let normalizedReadability : ℚ := min 1 (max 0 (readabilityScore / 100))
    let normalizedSentiment : ℚ := min 1 (max 0 ((sentimentScore + 1) / 2))
    let overallQuality : ℚ :=
      normalizedReadability * (3 : ℚ) / 10 + keywordDensity * (1 : ℚ) / 5 +
      normalizedSentiment * (1 : ℚ) / 5 + informativeness * (3 : ℚ) / 10
    ⟨normalizedReadability, keywordDensity, normalizedSentiment, informativeness,
     overallQuality⟩

/-- `NaturalNLPAnalyzer.extractKeyTerms(text, maxTerms)` (source lines 188–212). -/
def extractKeyTerms (env : Env) (text : String) (maxTerms : Nat) : List String :=
  let tokens := (env.tokenize (lowerStr text)).filter
    (fun t => 3 < t.length && !(t.data.all Char.isDigit))
  if tokens = [] then []
  else
    let stemmed := tokens.map env.stem
    let freq := (firstOccs stemmed).map (fun w => (w, stemmed.count w))
    ((sortDescNat freq).take maxTerms).map Prod.fst

/-- `NaturalNLPAnalyzer.calculateSimilarity(text1, text2)` (source lines
217–240): normalization plus the Jaro–Winkler distance of the `natural`
library (an oracle). -/
def calculateSimilarity (env : Env) (t1 t2 : String) : ℚ :=
  if t1 = "" ∨ t2 = "" then 0
  else
    let n1 := normalizeText t1
    let n2 := normalizeText t2
    if n1 = n2 then 1
    else if n1.length = 0 ∨ n2.length = 0 then 0
    else env.jaroWinkler n1 n2

/-! ### `ContentAnalyzer`: region scoring (source lines 446–571) -/

inductive RegionType
  | main | sidebar | navigation | footer | header | advertisement
deriving DecidableEq

structure ContentRegion where
  el : ElementInfo
  score : ℚ
  rtype : RegionType
  textDensity : ℚ
  linkDensity : ℚ
  hasStructuredData : Bool

/-- The four class/id pattern regexes of `classifyRegionType` are written
`/\\b(...)\\b/` in the source — inside a regex literal `\\` is an escaped
backslash, so they match a literal backslash, `b`, an alternative, a literal
backslash, `b`; they can never match an ordinary class name or id. -/
def backslashBTest (alts : List String) (s : String) : Bool :=
  alts.any (fun a => jsIncludes s ("\\b" ++ a ++ "\\b"))

def adAlts : List String := ["ad", "ads", "advertisement", "banner", "promo", "sponsor"]
def navAlts : List String := ["nav", "menu", "breadcrumb", "pagination"]
def sidebarAlts : List String := ["sidebar", "aside", "widget"]
def mainAlts : List String := ["main", "content", "article", "post", "entry"]

/-- `classifyRegionType(element)` (source lines 543–570), exactly as written
(including the `\\b` regexes). -/
def classifyRegionType (e : ElementInfo) : RegionType :=
  let tagName := lowerStr e.tagName
  let className := lowerStr e.className
  let idStr := lowerStr e.id
  if tagName = "main" ∨ tagName = "article" then .main
  else if tagName = "nav" then .navigation
  else if tagName = "aside" then .sidebar
  else if tagName = "header" then .header
  else if tagName = "footer" then .footer
  else if backslashBTest adAlts className ∨ backslashBTest adAlts idStr then .advertisement
  else if backslashBTest navAlts className ∨ backslashBTest navAlts idStr then .navigation
  else if backslashBTest sidebarAlts className ∨ backslashBTest sidebarAlts idStr then .sidebar
  else if backslashBTest mainAlts className ∨ backslashBTest mainAlts idStr then .main
  else .main

/-- `hasStructuredContent(element)` (source lines 535–541). -/
def hasStructuredContent (e : ElementInfo) : Bool :=
  e.hasTables || e.hasItemscope || e.hasJsonLd

/-- The type modifier added to a region score (source lines 511–523). -/
def regionTypeModifier : RegionType → ℚ
  | .main => 3 / 10
  | .advertisement => -(1 / 2)
  | .navigation => -(1 / 2)
  | .sidebar => -(1 / 5)
  | _ => 0

/-- `scoreContentRegion(element)` (source lines 467–533). -/
def scoreContentRegion (e : ElementInfo) : ContentRegion :=
  let textLength := (jsTrim e.textContent).length
  let textDensity : ℚ := (textLength : ℚ) / (max e.innerHTMLStr.length 1 : ℚ)
  let linkDensity : ℚ := (e.linkTextLen : ℚ) / (max textLength 1 : ℚ)
  let hasSD := hasStructuredContent e
  let ty := classifyRegionType e
  let s1 : ℚ :=
    if 200 ≤ textLength ∧ textLength ≤ 2000 then 2 / 5
    else if 100 < textLength then 1 / 5
    else 0
  let s2 := s1 + textDensity * (3 : ℚ) / 10
  let s3 :=
    if linkDensity < 3 / 10 then s2 + 1 / 5
    else if 7 / 10 < linkDensity then s2 - 3 / 10
    else s2
  let s4 := if hasSD then s3 + 1 / 5 else s3
  let s5 := s4 + regionTypeModifier ty
  ⟨e, max 0 (min 1 s5), ty, textDensity, linkDensity, hasSD⟩

/-- Stable insertion, descending by region score (the stable JS
`sort((a, b) => b.score - a.score)`). -/
def insertRegionDesc (x : ContentRegion) : List ContentRegion → List ContentRegion
  | [] => [x]
  | y :: ys => if x.score ≤ y.score then y :: insertRegionDesc x ys else x :: y :: ys

/-- `ContentAnalyzer.analyzeContentRegions(document)` (source lines 450–465). -/
def analyzeContentRegions (cands : List ElementInfo) : List ContentRegion :=
  (((cands.map scoreContentRegion).filter (fun r => 1 / 10 < r.score)).foldl
    (fun acc x => insertRegionDesc x acc) [])

/-- The boilerplate deny-list `UNWANTED` (source lines 385–443). -/
def UNWANTED : List String :=
  [".share", ".social", ".ad", ".promo", ".footer", ".related", ".tags",
   ".author-box", "nav", "form", "[hidden]", "[aria-hidden=\"true\"]",
   "[class*=\"cookie\"]", "[id*=\"cookie\"]", "[class*=\"consent\"]",
   "[class*=\"gdpr\"]", "[class*=\"privacy\"]", "[class*=\"banner\"]",
   "[class*=\"popup\"]", "[class*=\"modal\"]", "[class*=\"overlay\"]",
   "[class*=\"lightbox\"]", "[role=\"dialog\"]", "[aria-modal=\"true\"]",
   "[class*=\"ad-\"]", "[class*=\"ads\"]", "[data-ad]", "[data-google-ad]",
   "iframe[src*=\"doubleclick\"]", "iframe[src*=\"googlesyndication\"]",
   "[class*=\"follow\"]", "[class*=\"subscribe\"]", "[class*=\"newsletter\"]",
   "[class*=\"signup\"]", "[class*=\"breadcrumb\"]", "[class*=\"pagination\"]",
   "[class*=\"sidebar\"]", "[class*=\"widget\"]", "header", "aside", ".header",
   ".sidebar", "[class*=\"comment\"]", "[class*=\"discuss\"]"]

/-- `removeBoilerplate(node)` (source lines 573–577): apply the deny-list
selectors in order through the DOM oracle. -/
def removeBoilerplate (env : Env) (node : String) : String :=
  UNWANTED.foldl (fun d sel => env.domRemoveAll d sel) node

/-! ### The `enhancedLinks` turndown rule (source lines 766–836) -/

/-- `url.match(/^https?:\/\/[^\s\/]+$/)`: an absolute URL with no path. -/
def matchesBareDomain (url : String) : Bool :=
  let check (l : List Char) : Bool := !l.isEmpty && l.all (fun c => !(isJsWs c) && c ≠ '/')
  if strStarts url "https://" then check (url.data.drop 8)
  else if strStarts url "http://" then check (url.data.drop 7)
  else false

/-- `isValidUrl(url)` (source lines 777–811).  `urlParses` models the success
of `new URL(url)` for absolute URLs (the WHATWG URL parser of the runtime). -/
def isValidUrl (urlParses : String → Bool) (url : String) : Bool :=
  if url == "" || decide (url.length < 7) then false
  else if strStarts url "javascript:" || strStarts url "mailto:" || url == "#" then false
  else if jsIncludes url "\n" || jsIncludes url " " || jsIncludes url "\t" then false
  else if matchesBareDomain url then false
  else if strStarts url "/" || strStarts url "./" || strStarts url "../" then
    decide (3 < url.length) && !(jsIncludes url " ")
  else if strStarts url "http" then urlParses url
  else false

/-- JS `s.replace(pat, rep)` with a literal pattern: first occurrence only. -/
def replaceFirstL (pat rep : List Char) : List Char → List Char
  | [] => []
  | c :: cs =>
    if isPrefixL pat (c :: cs) then rep ++ (c :: cs).drop pat.length
    else c :: replaceFirstL pat rep cs

/-- The replacement function of the `enhancedLinks` turndown rule (source
lines 768–835).  `urlHost` models `new URL(u).hostname` (`none` = the
constructor throws); `content` is the rendered link content, `title` the
`title` attribute. -/
def enhancedLinkReplacement (urlParses : String → Bool) (urlHost : String → Option String)
    (href : Option String) (content : String) (title : Option String) : String :=
  match href with
  | none =>
    let text := jsTrim content
    if text = "" then "" else text
  | some h =>
    let text := jsTrim content
    if text = "" then ""
    else if !(isValidUrl urlParses h) then text
    else if 150 < h.length then text
    else if text = h ∨ jsIncludes text h then
      match urlHost (if strStarts h "http" then h else "https://" ++ h) with
      | none => text
      | some host =>
        let domain := String.mk (replaceFirstL "www.".data [] host.data)
        let cleanText :=
          match title with
          | some t => if t = "" then domain else t
          | none => domain
        "[" ++ cleanText ++ "](" ++ h ++ ")"
    else "[" ++ text ++ "](" ++ h ++ ")"

/-! ### `EmbeddingCircuitBreaker` (SemanticRanker.ts lines 9–75) -/

inductive CBState
  | closed | opened | halfOpen
deriving DecidableEq

structure BreakerState where
  state : CBState
  failureCount : Nat
  lastFailureTime : Int
deriving DecidableEq

def failureThreshold : Nat := 5
def breakerResetTimeout : Int := 300000

inductive ExecOutcome
  | rejected | succeeded | failed
deriving DecidableEq

/-- `recordFailure()` (SemanticRanker.ts lines 58–66). -/
def recordFailure (b : BreakerState) (now : Int) : BreakerState :=
  let fc := b.failureCount + 1
  { state := if failureThreshold ≤ fc then .opened else b.state,
    failureCount := fc,
    lastFailureTime := now }

/-- One sequential `execute(operation)` call (SemanticRanker.ts lines 26–56):
`now` is `Date.now()`, `opOk` whether the raced operation resolves.  Returns
the next breaker state and the call outcome. -/
def breakerExecute (b : BreakerState) (now : Int) (opOk : Bool) :
    BreakerState × ExecOutcome :=
  let gate : Option BreakerState :=
    if b.state = .opened then
      if breakerResetTimeout < now - b.lastFailureTime then
        some { b with state := .halfOpen }
      else none
    else some b
  match gate with
  | none => (b, .rejected)
  | some b1 =>
    if opOk then
      if b1.state = .halfOpen then
        ({ b1 with state := .closed, failureCount := 0 }, .succeeded)
      else (b1, .succeeded)
    else (recordFailure b1 now, .failed)

/-- The initial breaker state. -/
def breakerInit : BreakerState := ⟨.closed, 0, 0⟩

/-- States reachable by sequences of `execute` calls. -/
inductive BreakerReach : BreakerState → Prop
  | init : BreakerReach breakerInit
  | step (b : BreakerState) (now : Int) (ok : Bool) :
      BreakerReach b → BreakerReach (breakerExecute b now ok).1

/-! ### `SummarizationService` (source lines 288–383) -/

structure SummState where
  summarizer : Option SummFn
  modelName : String
  initAttempted : Bool

def summModels : List String :=
  ["Xenova/distilbart-cnn-6-6", "Xenova/distilbart-cnn-12-6", "Xenova/bart-large-cnn"]

def summTimeoutMs : Nat := 30000
def summMaxRetries : Nat := 2

/-- `doInitialize()` (source lines 312–340): try the candidate models in
order, each load raced against the 30 s timeout; returns the first success
and the elapsed model-load time. -/
def doInitGo (env : Env) : List String → Nat → Option (SummFn × String) × Nat
  | [], e => (none, e)
  | m :: ms, e =>
    let r := env.loadModel m
    if r.1 < summTimeoutMs then
      match r.2 with
      | some f => (some (f, m), e + r.1)
      | none => doInitGo env ms (e + r.1)
    else doInitGo env ms (e + summTimeoutMs)

/-- `initialize()` (source lines 304–310): reuse the loaded summarizer, or the
cached in-flight/settled initialization, else run `doInitialize` once. -/
def ensureInit (env : Env) (st : SummState) : SummState × Nat :=
  if st.summarizer.isSome then (st, 0)
  else if st.initAttempted then (st, 0)
  else
    match doInitGo env summModels 0 with
    | (some (f, m), e) => (⟨some f, m, true⟩, e)
    | (none, e) => (⟨none, st.modelName, true⟩, e)

structure SummOutcome where
  result : Except String String
  elapsed : Nat
  attempts : Nat

/-- One backend attempt raced against the 30 s timeout; on success the result
is `result?.[0]?.summary_text?.trim() || ''`. -/
def raceAttempt (f : SummFn) (text : String) (p : SummParams) (k : Nat) :
    Except String String × Nat :=
  let r := f text p k
  if r.1 < summTimeoutMs then
    (match r.2 with
     | .ok out => .ok (jsTrim out)
     | .error e => .error e, r.1)
  else (.error "Summarization timeout", summTimeoutMs)

/-- The retry loop of `summarize` (source lines 345–363): `rem` attempts
remain, `k` is the current attempt index, `e`/`a` accumulate elapsed time and
attempts made; a failed non-final attempt waits 1 s before retrying, the final
failure is thrown. -/
def attemptsGo (f : SummFn) (text : String) (p : SummParams) :
    Nat → Nat → Nat → Nat → SummOutcome
  | 0, _, e, a => ⟨.error "Summarization failed after all retries", e, a⟩
  | rem + 1, k, e, a =>
    let r := raceAttempt f text p k
    match r.1 with
    | .ok out => ⟨.ok out, e + r.2, a + 1⟩
    | .error err =>
      if rem = 0 then ⟨.error err, e + r.2, a + 1⟩
      else attemptsGo f text p rem (k + 1) (e + r.2 + 1000) (a + 1)

/-- `SummarizationService.summarize(text, params)` (source lines 342–364). -/
def serviceSummarize (env : Env) (st : SummState) (text : String) (p : SummParams) :
    SummOutcome × SummState :=
  let r0 := ensureInit env st
  match r0.1.summarizer with
  | none => (⟨.error "Failed to initialize any summarization model", r0.2, 0⟩, r0.1)
  | some f =>
    let o := attemptsGo f text p summMaxRetries 0 0 0
    (⟨o.result, r0.2 + o.elapsed, o.attempts⟩, r0.1)

/-! ### Content classification (source lines 1344–1447) -/

inductive ContentType
  | structured | narrative | mixed
deriving DecidableEq

inductive InfoDensity
  | high | medium | low
deriving DecidableEq

structure ContentClassification where
  contentType : ContentType
  informationDensity : InfoDensity
  keyEntities : List String
  hasNumericData : Bool
  hasListStructure : Bool
  readabilityScore : ℚ

/-- `(text.match(/^[-*+]\s/gm) || []).length`. -/
def countBulletGo : Bool → List Char → Nat
  | _, [] => 0
  | atStart, c :: cs =>
    (if atStart && (c = '-' || c = '*' || c = '+') &&
        (match cs with | d :: _ => isJsWs d | [] => false) then 1 else 0) +
    countBulletGo (c = '\n') cs

def countBulletLines (s : String) : Nat := countBulletGo true s.data

/-- `classifyContent(text)` (source lines 1354–1412). -/
def classifyContent (env : Env) (text : String) : ContentClassification :=
  let people := env.nlpPeople text
  let places := env.nlpPlaces text
  let organizations := env.nlpOrgs text
  let numbers := env.nlpNumbers text
  let naturalAnalysis := analyzeContentQuality env text
  let keyTerms := extractKeyTerms env text 8
  let hasNumbers := numbers ≠ []
  let hasList := 2 < env.nlpListCount text
  let hasTable := jsIncludes text "**Table**"
  let hasListStructure := 3 < countBulletLines text
  let contentType : ContentType :=
    if hasNumbers ∧ (hasList ∨ hasTable ∨ hasListStructure) then .structured
    else if hasNumbers ∨ hasList ∨ hasListStructure then .mixed
    else .narrative
  let wordCount := jsWords text
  let entityCount := people.length + places.length + organizations.length
  let numberCount := numbers.length
  let uniqueWords := countDistinct (jsSplitWs (lowerStr text))
  let d0 : ℚ := naturalAnalysis.informativeness * 20
  let d1 := if 0 < entityCount then d0 + (entityCount : ℚ) * 2 else d0
  let d2 := if 0 < numberCount then d1 + (numberCount : ℚ) else d1
  let d3 := if (3 : ℚ) / 5 < (uniqueWords : ℚ) / (wordCount : ℚ) then d2 + 10 else d2
  let d4 := if hasTable ∨ hasListStructure then d3 + 5 else d3
  let d5 := if (3 : ℚ) / 10 < naturalAnalysis.keywordDensity then d4 + 8 else d4
  let informationDensity : InfoDensity :=
    if 20 ≤ d5 then .high else if 10 ≤ d5 then .medium else .low
  let allEntities := firstOccs (people ++ places ++ organizations ++ keyTerms)
  ⟨contentType, informationDensity, allEntities.take 12, hasNumbers,
   hasListStructure, naturalAnalysis.readabilityScore⟩

/-- `extractKeyInformation(text, classification)` (source lines 1415–1447;
the classification parameter is not inspected by the body). -/
def extractKeyInformation (env : Env) (text : String) : List String :=
  let extracted :=
    (env.nlpNumbers text).take 6 ++ (env.nlpPeople text).take 5 ++
    (env.nlpPlaces text).take 5 ++ (env.nlpOrgs text).take 5 ++
    (env.nlpDates text).take 3 ++ (env.nlpMoney text).take 4 ++
    (env.nlpPercentages text).take 4 ++ (env.nlpQuotations text).take 2 ++
    (env.nlpNounPairs text).take 5
  extracted.filter (fun item => item ≠ "" ∧ 2 < item.length)

/-! ### `postProcessSummary` (source lines 1450–1512) -/

def postProcessSummary (summary : String) : String :=
  let p1 := applyKwDelete
    ["according to the reports", "according to the report",
     "according to reports", "according to report"] summary
  let p2 := applyKwDelete
    ["the article states", "the article mentions", "the article says",
     "the article reports"] p1
  let p3 := applyKwDelete ["in addition to"] p2
  let p4 := applyKwDelete ["it is important to note that"] p3
  let p5 := applyKwDelete ["it should be noted that"] p4
  let p6 := applyKwDelete ["as previously mentioned"] p5
  let p7 := applyKwDelete ["for example,", "for example"] p6
  let p8 := applyKwDelete ["for instance,", "for instance"] p7
  let p9 := applyKwDelete ["in conclusion,", "in conclusion"] p8
  let p10 := applyKwDelete ["to summarize,", "to summarize"] p9
  let p11 := applyKwDelete ["overall,", "overall"] p10
  let p12 := applyKwDelete ["in summary,", "in summary"] p11
  let q1 := applyKwDropPrefix
    ["was created", "was developed", "was built", "was designed",
     "was implemented", "was established", "was completed", "was announced"] 4 p12
  let q2 := applyKwDropPrefix
    ["were developed", "were created", "were built", "were designed",
     "were implemented", "were awarded", "were given", "were presented"] 5 q1
  let q3 := applyKwConst ["is expected to"] "will" q2
  let q4 := applyKwConst ["will be able to"] "can" q3
  let q5 := applyKwConst ["is being"] "is" q4
  let q6 := applyKwConst ["are being"] "are" q5
  let r1 := applyKwConst ["more than"] ">" q6
  let r2 := applyKwConst ["less than"] "<" r1
  let r3 := applyKwConst ["approximately"] "~" r2
  let r4 := applyKwConst ["about"] "~" r3
  let r5 := applyKwConst ["percent"] "%" r4
  let r6 := applyKwConst ["million"] "M" r5
  let r7 := applyKwConst ["billion"] "B" r6
  let r8 := applyKwConst ["thousand"] "K" r7
  let w1 := String.mk (collapseWs r8.data)
  let w2 := runRepl (rulePunctSpacing ',' ", ".data) w1
  let w3 := runRepl (rulePunctSpacing '.' ". ".data) w2
  let w4 := runRepl (rulePunctPair '.') w3
  let w5 := runRepl (rulePunctPair ',') w4
  jsTrim w5

/-! ### `validateSummaryQuality` (source lines 1067–1139) -/

structure SummaryValidation where
  isValid : Bool
  score : Int
  issues : List String

def validateSummaryQuality (env : Env) (original summary : String) :
    SummaryValidation :=
  if summary = "" ∨ summary.length < 10 then ⟨false, 0, ["Summary too short"]⟩
  else
    let words := jsSplitWs (lowerStr summary)
    -- count > Math.max(2, words.length * 0.15), cross-multiplied by 20
    let repetitiveWords := (uniqList words).filter
      (fun w => 3 < w.length ∧ max 40 (3 * words.length) < 20 * words.count w)
    let issues1 : List String :=
      if repetitiveWords ≠ [] then ["Contains repetitive content"] else []
    let s1 : Int := 100 - (if repetitiveWords ≠ [] then 20 else 0)
    let sentences := (splitTerms summary).filter (fun s => 5 < (jsTrim s).length)
    let issues2 := issues1 ++ (if sentences = [] then ["No complete sentences"] else [])
    let s2 := s1 - (if sentences = [] then 30 else 0)
    let originalEntities :=
      ((env.nlpPeople original) ++ (env.nlpPlaces original) ++
        (env.nlpOrgs original)).take 5
    let summaryEntities :=
      (env.nlpPeople summary) ++ (env.nlpPlaces summary) ++ (env.nlpOrgs summary)
    let preserved := originalEntities.filter (fun en =>
      summaryEntities.any (fun se => jsIncludes (lowerStr se) (lowerStr en)))
    -- ratio < 0.3 (cross-multiplied) and more than 2 original entities
    let lost := 10 * preserved.length < 3 * originalEntities.length ∧
      2 < originalEntities.length
    let issues3 := issues2 ++ (if lost then ["Lost important entities"] else [])
    let s3 := s2 - (if lost then 25 else 0)
    ⟨decide (50 ≤ s3) && decide (issues3 = []), s3, issues3⟩

/-! ### Fallback summaries (source lines 1719–1778) -/

/-- `createGeneralFallback(keyInfo, classification)` (source lines 1720–1739). -/
def createGeneralFallback (keyInfo : List String) (cls : ContentClassification) :
    String :=
  if keyInfo = [] then "Content summary unavailable."
  else
    let entities := cls.keyEntities.take 3
    let keyPoints := keyInfo.take 6
    if entities ≠ [] then
      "Key topics: " ++ joinWith ", " entities ++ ". Summary: " ++
        joinWith "; " keyPoints ++ "."
    else "Summary: " ++ joinWith "; " keyPoints ++ "."

/-- `naturalExtractiveSummary(text, maxSentences)` (source lines 1742–1778):
entity/verb-scored sentence selection, stable-sorted by score. -/
def naturalExtractiveSummary (env : Env) (text : String) (maxSentences : Nat) :
    String :=
  let sentences := env.nlpSentences text
  if sentences.length ≤ maxSentences then text
  else
    let scored := sentences.map (fun s =>
      let sc : ℚ :=
        ((env.nlpNumbers s).length : ℚ) * 2 + ((env.nlpPercentages s).length : ℚ) * 2 +
        ((env.nlpMoney s).length : ℚ) * 2 + ((env.nlpPeople s).length : ℚ) +
        ((env.nlpOrgs s).length : ℚ) + (env.nlpVerbCount s : ℚ) * (1 : ℚ) / 2 +
        (if (jsSplitLit s " ").length < 5 then -2 else 0)
      (s, sc))
    joinWith " " (((scored.foldl (fun acc x => insertDescQ x acc) []).take
      maxSentences).map Prod.fst)

/-! ### `intelligentSummarization` (source lines 1515–1717) -/

inductive Compression
  | aggressive | moderate | gentle
deriving DecidableEq

/-- The compression strategy; `ratioNum` is `firstPassRatio × 10` (the source
ratios 1.8, 1.6, 1.5, 1.2, 1.9 represented exactly). -/
structure SummStrategy where
  ratioNum : Int
  compression : Compression
  preserveStructure : Bool
  maxIterations : Nat

def chooseStrategy (cls : ContentClassification) : SummStrategy :=
  if cls.contentType = .structured ∧ cls.informationDensity = .high then
    ⟨16, .gentle, true, 2⟩
  else if cls.contentType = .structured then ⟨15, .moderate, true, 2⟩
  else if cls.informationDensity = .low then ⟨12, .aggressive, false, 1⟩
  else if cls.informationDensity = .high then ⟨19, .gentle, false, 2⟩
  else ⟨18, .moderate, false, 2⟩

/-- `Math.ceil(a / b)` for `b > 0`. -/
def ceilDiv (a b : Int) : Int := -((-a).fdiv b)

/-- The catch handler of `intelligentSummarization` (source lines 1695–1716):
extractive summary, else key facts, else the original text. -/
def summFallback (env : Env) (text : String) (targetLength : Int)
    (cls : ContentClassification) : String :=
  let naturalSummary := naturalExtractiveSummary env text (ceilDiv targetLength 20).toNat
  if 50 < naturalSummary.length then naturalSummary
  else
    let keyInfo := extractKeyInformation env text
    if keyInfo ≠ [] then createGeneralFallback keyInfo cls
    else text

/-- The in-`try` fallback after a failed first-pass validation (source lines
1599–1621): key-facts summary if it validates, else extractive if long
enough, else the original text. -/
def firstPassFallback (env : Env) (text : String) (targetLength : Int)
    (cls : ContentClassification) (keyInfo : List String) : String :=
  if keyInfo ≠ [] ∧
      (validateSummaryQuality env text (createGeneralFallback keyInfo cls)).isValid then
    createGeneralFallback keyInfo cls
  else
    let extractive := naturalExtractiveSummary env text (ceilDiv targetLength 20).toNat
    if 30 < extractive.length then extractive
    else text

/-- The body of `intelligentSummarization` after `getSummarizer()` has
succeeded (source lines 1540–1717), from the already-initialized state `st1`;
the middle component is the backend time of this body alone (the caller adds
the initialization time on top). -/
def intelligentSummarizationRun (env : Env) (st1 : SummState) (text : String)
    (targetLength : Int) (cls : ContentClassification) :
    Except String String × Nat × SummState :=
  let keyInfo := extractKeyInformation env text
  let strat := chooseStrategy cls
  let firstParams : SummParams :=
    ⟨(targetLength * strat.ratioNum).fdiv 10, (targetLength * 11).fdiv 10,
     (if strat.compression = .aggressive then 4 else 3),
     cls.contentType = .narrative, true⟩
  let r1 := serviceSummarize env st1 text firstParams
  match r1.1.result with
  | .error _ =>
    (.ok (summFallback env text targetLength cls), r1.1.elapsed, r1.2)
  | .ok firstSummary =>
    let v1 := validateSummaryQuality env text firstSummary
    if !v1.isValid then
      (.ok (firstPassFallback env text targetLength cls keyInfo),
       r1.1.elapsed, r1.2)
    else
      let firstSummary2 := postProcessSummary firstSummary
      if (jsWords firstSummary2 : Int) ≤ targetLength ∨ strat.maxIterations = 1 then
        (.ok firstSummary2, r1.1.elapsed, r1.2)
      else
        let secondParams : SummParams :=
          ⟨targetLength,
           (targetLength * (if strat.compression = .aggressive then 5 else 7)).fdiv 10,
           4, false, true⟩
        let r2 := serviceSummarize env r1.2 firstSummary2 secondParams
        let e12 := r1.1.elapsed + r2.1.elapsed
        match r2.1.result with
        | .error _ => (.ok (summFallback env text targetLength cls), e12, r2.2)
        | .ok finalSummary =>
          if finalSummary ≠ "" then
            let fs := postProcessSummary finalSummary
            let v2 := validateSummaryQuality env text fs
            if !v2.isValid then
              (.ok (postProcessSummary firstSummary2), e12, r2.2)
            else if strat.maxIterations = 3 ∧
                12 * targetLength < 10 * (jsWords fs : Int) then
              -- the third pass is dead code here: maxIterations is never 3
              let thirdParams : SummParams :=
                ⟨(targetLength * 9).fdiv 10, (targetLength * 5).fdiv 10, 5,
                 false, true⟩
              let r3 := serviceSummarize env r2.2 fs thirdParams
              let e123 := e12 + r3.1.elapsed
              match r3.1.result with
              | .error _ =>
                (.ok (summFallback env text targetLength cls), e123, r3.2)
              | .ok ultra =>
                if ultra ≠ "" ∧ 30 < ultra.length then
                  if (validateSummaryQuality env text ultra).isValid then
                    (.ok (postProcessSummary ultra), e123, r3.2)
                  else (.ok (if fs ≠ "" then fs else firstSummary2), e123, r3.2)
                else (.ok (if fs ≠ "" then fs else firstSummary2), e123, r3.2)
            else (.ok (if fs ≠ "" then fs else firstSummary2), e12, r2.2)
          else (.ok firstSummary2, e12, r2.2)

/-- `intelligentSummarization(text, targetLength, classification)` (source
lines 1515–1717).  Returns the result, the accumulated backend time in
milliseconds, and the updated service state.  `getSummarizer()` runs before
the `try`, so an initialization failure escapes as an error; backend failures
inside the `try` are caught and answered by `summFallback`. -/
def intelligentSummarization (env : Env) (st : SummState) (text : String)
    (targetLength : Int) (cls : ContentClassification) :
    Except String String × Nat × SummState :=
  if text = "" ∨ (jsTrim text).length < 50 then
    (.error "Input text too short for summarization", 0, st)
  else if targetLength < 10 ∨ 1000 < targetLength then
    (.error "Invalid target length for summarization", 0, st)
  else
    let ri := ensureInit env st
    match ri.1.summarizer with
    | none => (.error "Failed to initialize any summarization model", ri.2, ri.1)
    | some _ =>
      let r := intelligentSummarizationRun env ri.1 text targetLength cls
      (r.1, ri.2 + r.2.1, r.2.2)

/-! ### `summarizeMarkdown` (source lines 1780–1914) -/

/-- `(trimmed.match(/\d+/g) || []).length`: the number of digit runs. -/
def countDigitRuns (s : String) : Nat :=
  ((splitRuns (fun c => !c.isDigit) s.data).filter (fun r => r ≠ [])).length

/-- The per-section summarization decision (source lines 1865–1890): whether
to summarize and the target length in words.  The `> wordCount * 0.1`
comparison is stated cross-multiplied by 10. -/
def sectionDecision (adaptive : Nat) (q : Int) (trimmed : String) : Bool × Int :=
  let wordCount := jsWords trimmed
  let hasTabularData := jsIncludes trimmed "**Table**"
  let hasNumericData := wordCount < 10 * countDigitRuns trimmed
  let hasListStructure := 3 < countBulletLines trimmed
  if 70 ≤ q then
    (decide (300 < wordCount), if hasTabularData || hasNumericData then 90 else 70)
  else if 50 ≤ q then
    (decide (500 < wordCount), if hasListStructure then 50 else 60)
  else (decide (adaptive < wordCount), 40)

/-- The per-section loop of `summarizeMarkdown` (source lines 1851–1911):
skip empty or quality-below-25 sections, summarize the oversized ones, keep
the rest verbatim.  Returns the kept strings, the accumulated backend time,
and the service state; an error escaping `intelligentSummarization` aborts
the loop exactly as a thrown exception would. -/
def processSections (env : Env) (adaptive : Nat) :
    SummState → List String → Except String (List String) × Nat × SummState
  | st, [] => (.ok [], 0, st)
  | st, sec :: rest =>
    let trimmed := jsTrim sec
    if trimmed = "" then processSections env adaptive st rest
    else
      let qualityScore := assessContentQuality trimmed
      if qualityScore < 25 then processSections env adaptive st rest
      else
        let d := sectionDecision adaptive qualityScore trimmed
        if d.1 then
          let cls := classifyContent env trimmed
          match intelligentSummarization env st trimmed d.2 cls with
          | (.error e, el, st2) => (.error e, el, st2)
          | (.ok summary, el, st2) =>
            let keep := if summary ≠ "" ∧ 20 < summary.length then summary else trimmed
            match processSections env adaptive st2 rest with
            | (.error e, el2, st3) => (.error e, el + el2, st3)
            | (.ok outs, el2, st3) => (.ok (keep :: outs), el + el2, st3)
        else
          match processSections env adaptive st rest with
          | (.error e, el2, st3) => (.error e, el2, st3)
          | (.ok outs, el2, st3) => (.ok (trimmed :: outs), el2, st3)

/-- Replace the first occurrence of `ex` in a list (the
`sections[sections.indexOf(existing)] = current` mutation). -/
def replaceFirstEq : List String → String → String → List String
  | [], _, _ => []
  | x :: xs, ex, t => if x = ex then t :: xs else x :: replaceFirstEq xs ex t

/-- The similarity-based section dedup of `summarizeMarkdown` (source lines
1807–1844): drop short sections, and for each section similar (> 0.85) to an
already kept one, keep the better of the two. -/
def dedupSectionsGo (env : Env) : List String → List String → List String
  | [], acc => acc
  | cur :: rest, acc =>
    let t := jsTrim cur
    if t = "" ∨ t.length < 50 then dedupSectionsGo env rest acc
    else
      match acc.find? (fun ex => (17 : ℚ) / 20 < calculateSimilarity env t ex) with
      | some ex =>
        let curQ := assessContentQuality t
        let exQ := assessContentQuality ex
        if exQ < curQ ∨ (curQ = exQ ∧ ex.length < t.length) then
          dedupSectionsGo env rest (replaceFirstEq acc ex t)
        else dedupSectionsGo env rest acc
      | none => dedupSectionsGo env rest (acc ++ [t])

/-- `summarizeMarkdown(markdown, maxChunkWords)` (source lines 1780–1914).
`Math.floor(maxChunkWords * r)` for `r ∈ {1.4, 1.2, 0.8}` is the exact
`Nat` division by 10. -/
def summarizeMarkdownGo (env : Env) (adaptive : Nat) (st : SummState)
    (sections : List String) : Except String String × Nat × SummState :=
  match processSections env adaptive st sections with
  | (.error e, el, st2) => (.error e, el, st2)
  | (.ok summaries, el, st2) => (.ok (joinWith "\n\n---\n\n" summaries), el, st2)

def summarizeMarkdown (env : Env) (st : SummState) (markdown : String)
    (maxChunkWords : Nat) : Except String String × Nat × SummState :=
  let overallQuality := assessContentQuality markdown
  let adaptive :=
    if 70 ≤ overallQuality then maxChunkWords * 14 / 10
    else if 50 ≤ overallQuality then maxChunkWords * 12 / 10
    else if overallQuality < 30 then maxChunkWords * 8 / 10
    else maxChunkWords
  let rawSections := intelligentChunk markdown adaptive
  let sections := dedupSectionsGo env rawSections []
  summarizeMarkdownGo env adaptive st sections

/-! ### `cleanMarkdownArtifacts` (source lines 1046–1064): the remark pass is
an oracle (`none` models a throw, answered by the fallback to the input),
followed by the two whitespace replaces and a trim. -/

def cleanMarkdownArtifacts (env : Env) (markdown : String) : String :=
  match env.remarkProcess markdown with
  | none => markdown
  | some r =>
    jsTrim (runRepl ruleNl3Ws (runRepl (charRunRule '\n' 4 "\n\n\n".data false) r))

/-! ### `cleanHtml` (source lines 1916–2100) -/

/-- One structured-data context line (source lines 2032–2042). -/
def structuredContextLine (it : StructuredItem) : Option String :=
  if it.isJsonLd then
    match it.name with
    | some n =>
      if n = "" then none
      else
        let desc := match it.description with
          | some d => if d = "" then "Structured data available" else d
          | none => "Structured data available"
        some ("**" ++ n ++ "**: " ++ desc)
    | none => none
  else
    match it.atType with
    | some ty => if ty = "" then none else some ("**" ++ ty ++ "**: Structured content")
    | none => none

/-- The region-scoring fallback used when Readability finds no content
(source lines 1968–2009): sentiment-filter the regions, pick the best `main`
region over 0.3 or the top region, and accept it if it scores over 0.2. -/
def regionFallback (env : Env) (doc : String) (regions : List ContentRegion) :
    Option Article :=
  let qualityRegions := regions.filter (fun r =>
    let text := r.el.textContent
    if text.length < 100 then false
    else
      let a := analyzeContentQuality env text
      decide ((3 : ℚ) / 10 < a.overallQuality) && decide ((1 : ℚ) / 5 < a.sentimentScore))
  let candidateRegions := if qualityRegions.isEmpty then regions else qualityRegions
  let best := match candidateRegions.find?
      (fun r => r.rtype = .main ∧ (3 : ℚ) / 10 < r.score) with
    | some r => some r
    | none => candidateRegions.head?
  match best with
  | none => none
  | some r =>
    if (1 : ℚ) / 5 < r.score then
      some ⟨env.docTitle doc, r.el.innerHTMLStr, r.el.textContent⟩
    else none

/-- The catch-block wrapping of `cleanHtml` (source lines 2074–2086). -/
def wrapCleanError (url msg : String) : String :=
  if jsIncludes msg "timeout" then "Timeout while processing content from " ++ url
  else if jsIncludes msg "too large" then
    "Content from " ++ url ++ " is too large to process"
  else "Error cleaning HTML from " ++ url ++ ": " ++ msg

/-- The state-free part of `cleanHtml` (source lines 1916–2073, translated in
source order): everything up to the `summarizeMarkdown` call.  `.inl r` is an
early answer (a validation error, no extractable content, or content too
short after cleaning); `.inr md3` is the cleaned markdown handed to
`summarizeMarkdown`.  None of this touches the summarization service. -/
def cleanHtmlPre (env : Env) (rawHtml url : String) :
    Except String String ⊕ String :=
  if rawHtml = "" ∨ (jsTrim rawHtml).length < 100 then
    .inl (.error "HTML content too short or empty")
  else if 10000000 < rawHtml.length then
    .inl (.error "HTML content too large for processing")
  else
    let structuredData := env.schemaItems rawHtml
    let contentRegions := analyzeContentRegions (env.candidates rawHtml)
    let article0 := env.readability rawHtml url
    let readable : Bool := match article0 with
      | some a => a.content != ""
      | none => false
    let article1 :=
      if readable then article0
      else if !contentRegions.isEmpty then
        match regionFallback env rawHtml contentRegions with
        | some a => some a
        | none => article0
      else article0
    match article1 with
    | none => .inl (.ok "")
    | some article =>
      if article.content = "" then .inl (.ok "")
      else
        let bodyDom := env.parseBodyDom article.content url
        let body := removeBoilerplate env bodyDom
        let md0 := env.turndown (env.bodyInnerHTML body)
        let ctx := (structuredData.filterMap structuredContextLine).take 3
        let md1 :=
          if !structuredData.isEmpty && !ctx.isEmpty then
            "*Structured Data: " ++ joinWith ", " ctx ++ "*\n\n---\n\n" ++ md0
          else md0
        let md2 := dedupeContent (prettyWhitespace md1)
        if md2 = "" ∨ (jsTrim md2).length < 50 then
          .inl (.ok "Content too short after cleaning.")
        else .inr (cleanMarkdownArtifacts env md2)

/-- The `try` body of `cleanHtml`: the state-free extraction, then
summarization of the cleaned markdown. -/
def cleanHtmlInner (env : Env) (st : SummState) (rawHtml url : String) :
    Except String String × SummState :=
  match cleanHtmlPre env rawHtml url with
  | .inl r => (r, st)
  | .inr md3 =>
    match summarizeMarkdown env st md3 700 with
    | (.error e, _, st2) => (.error e, st2)
    | (.ok out, _, st2) => (.ok out, st2)

/-- `cleanHtml(rawHtml, url)` (source lines 1916–2100).  The notification
side effect on total extraction failure is dropped (fire-and-forget); the
2-minute `Promise.race` is a wall-clock bound with no counterpart in the
untimed embedding (the modelled backend time is accumulated but the model
always lets the pipeline finish, the deterministic-backend reading of §8). -/
def cleanHtml (env : Env) (st : SummState) (rawHtml url : String) :
    Except String String × SummState :=
  match cleanHtmlInner env st rawHtml url with
  | (.ok out, st2) => (.ok out, st2)
  | (.error e, st2) => (.error (wrapCleanError url e), st2)

/-! ### Concrete instances used by witnesses -/

/-- A backend that throws immediately on every attempt. -/
def failFn : SummFn := fun _ _ _ => (0, .error "boom")

/-- The constantly-empty token list, the answer every list-valued oracle of
`trivialEnv` gives. -/
def noTokens : String → List String := fun _ => []

/-- A trivial oracle environment (all external libraries return nothing). -/
def trivialEnv : Env :=
  ⟨fun _ _ => "", fun d _ => d, fun _ => "", fun _ => "", fun _ _ => none,
   fun _ => [], fun _ => [], fun _ => "", fun _ => none,
   noTokens, noTokens, fun s => s, fun _ _ => 0,
   noTokens, noTokens, noTokens, noTokens, noTokens,
   noTokens, noTokens, noTokens, noTokens, noTokens,
   fun _ => 0, fun _ => 0, fun _ => (0, none)⟩

/-- A service state already initialized with the always-failing backend. -/
def stFail : SummState := ⟨some failFn, "m", true⟩

def pZero : SummParams := ⟨0, 0, 0, false, false⟩

/-- Is an `Except` result an error? -/
def exceptIsError : Except String String → Bool
  | .error _ => true
  | .ok _ => false

/-- Whether modelled attempt `k` of backend `f` fails (a thrown error, or a
duration reaching the 30 s timeout so that the race rejects). -/
def attemptFails (f : SummFn) (text : String) (p : SummParams) (k : Nat) : Prop :=
  summTimeoutMs ≤ (f text p k).1 ∨ exceptIsError (f text p k).2 = true

/-- The 50-character chunk used by the C2 witness. -/
def c2text : String := "aaaaaaaaaaaaaaaaaaaaaaaaaaaaaaaaaaaaaaaaaaaaaaaaaa"

/-- The concrete classification used by the C2 witness. -/
def clsZero : ContentClassification := ⟨.narrative, .low, [], false, false, 0⟩

/-! ## Theorems for the claims -/

/-! ### Structural facts about the header-splitting regex -/

/-- `tryHeaderT` structural facts needed for termination and content accounting. -/
theorem tryHeaderT_spec (l2 : List Char) :
    ∀ t0 t body rest, tryHeaderT l2 t0 = some (t, body, rest) →
      1 ≤ t ∧ t ≤ t0 ∧ l2.drop t = body ++ '\n' :: rest := by
  intro t0
  induction t0 with
  | zero => intro t body rest h; simp [tryHeaderT] at h
  | succ n ih =>
    intro t body rest h
    unfold tryHeaderT at h
    rcases hd : l2.drop (n + 1) with _ | ⟨c, cs⟩
    · rw [hd] at h
      obtain ⟨h1, h2, h3⟩ := ih t body rest h
      exact ⟨h1, Nat.le_succ_of_le h2, h3⟩
    · rw [hd] at h
      by_cases hc : c = '\n'
      · simp only [hc, if_pos rfl] at h
        obtain ⟨h1, h2, h3⟩ := ih t body rest h
        exact ⟨h1, Nat.le_succ_of_le h2, h3⟩
      · simp only [if_neg hc] at h
        rcases hdw : (c :: cs).dropWhile (fun d => decide (d ≠ '\n')) with _ | ⟨e, es⟩
        · rw [hdw] at h
          obtain ⟨h1, h2, h3⟩ := ih t body rest h
          exact ⟨h1, Nat.le_succ_of_le h2, h3⟩
        · rw [hdw] at h
          by_cases he : e = '\n'
          · subst he
            simp only [Option.some.injEq, Prod.mk.injEq] at h
            obtain ⟨ht, hb, hr⟩ := h
            refine ⟨by omega, by omega, ?_⟩
            rw [← ht, hd, ← hb, ← hr]
            have hsplit := List.takeWhile_append_dropWhile
              (p := fun d => decide (d ≠ '\n')) (l := c :: cs)
            rw [hdw] at hsplit
            exact hsplit.symm
          · exfalso
            have hhead := List.head?_dropWhile_not
              (p := fun d => decide (d ≠ '\n')) (l := c :: cs)
            rw [hdw] at hhead
            simp only [List.head?_cons, Option.mem_def, Option.some.injEq] at hhead
            exact he (by simpa using hhead)

/-- On success `rest` is strictly shorter than the input list. -/
theorem tryHeaderT_rest_len (l2 : List Char) (t0 t : Nat) (body rest : List Char)
    (h : tryHeaderT l2 t0 = some (t, body, rest)) : rest.length < l2.length := by
  obtain ⟨h1, _, h3⟩ := tryHeaderT_spec l2 t0 t body rest h
  have hlen : (l2.drop t).length = l2.length - t := List.length_drop _ _
  rw [h3] at hlen
  simp only [List.length_append, List.length_cons] at hlen
  omega

/-- The match of `matchHeaderAt` consumes at least one character beyond `rest`. -/
theorem matchHeaderAt_rest_len (l : List Char) (cap rest : List Char)
    (h : matchHeaderAt l = some (cap, rest)) : rest.length < l.length := by
  rcases l with _ | ⟨c, l1⟩
  · simp [matchHeaderAt] at h
  · simp only [matchHeaderAt] at h
    by_cases hc : c = '\n'
    swap
    · rw [if_neg hc] at h; simp at h
    rw [if_pos hc] at h
    by_cases hh : 1 ≤ (l1.takeWhile (fun d => d = '#')).length ∧
        (l1.takeWhile (fun d => d = '#')).length ≤ 6
    · rw [if_pos hh] at h
      rcases ht : tryHeaderT (l1.drop (l1.takeWhile (fun d => d = '#')).length)
          ((l1.drop (l1.takeWhile (fun d => d = '#')).length).takeWhile isJsWs).length with
        _ | ⟨t, body, rest2⟩
      · rw [ht] at h; simp at h
      · rw [ht] at h
        simp only [Option.some.injEq, Prod.mk.injEq] at h
        obtain ⟨_, hr⟩ := h
        have hlt := tryHeaderT_rest_len _ _ _ _ _ ht
        have hdrop : (l1.drop (l1.takeWhile (fun d => d = '#')).length).length ≤ l1.length := by
          simp [List.length_drop]
        subst hr
        simp only [List.length_cons]
        omega
    · rw [if_neg hh] at h; simp at h

/-- Claim C9: for every input string whose trimmed text is empty,
`assessContentQuality` returns 0 — not the base score of 50 with
adjustments — so whitespace-only chunks always fall below any positive
quality threshold. -/
theorem C9_whitespace_quality_zero (s : String) (h : jsTrim s = "") :
    assessContentQuality s = 0 ∧ ∀ t : Int, 0 < t → assessContentQuality s < t := by
  have h0 : assessContentQuality s = 0 := by
    unfold assessContentQuality
    rw [h]
    simp
  exact ⟨h0, fun t ht => by rw [h0]; exact ht⟩

/-- Witness for C9 at the whitespace-only input `"  \n\t "`. -/
theorem C9_whitespace_quality_zero_witness :
    assessContentQuality "  \n\t " = 0 ∧ assessContentQuality "  \n\t " < 25 :=
  ⟨(C9_whitespace_quality_zero "  \n\t " (by decide)).1,
   (C9_whitespace_quality_zero "  \n\t " (by decide)).2 25 (by decide)⟩

/-- Claim C6 (code bug): the class/id pattern regexes of `classifyRegionType`
are written `/\\b(...)\\b/`, which inside a regex literal matches a literal
backslash-`b`; they can never match a real class name, so a `div` with class
`sidebar` (or `ad`, or `nav`) is classified `main` and receives the `+0.3`
type modifier instead of the documented `−0.2` / `−0.5` penalties. -/
theorem C6_classify_backslash_bug :
    classifyRegionType ⟨"div", "sidebar", "", "", "", 0, false, false, false⟩ =
      RegionType.main ∧
    classifyRegionType ⟨"div", "ad banner", "", "", "", 0, false, false, false⟩ =
      RegionType.main ∧
    classifyRegionType ⟨"div", "nav menu", "", "", "", 0, false, false, false⟩ =
      RegionType.main ∧
    backslashBTest sidebarAlts "sidebar" = false ∧
    backslashBTest sidebarAlts "x\\bsidebar\\by" = true := by
  decide

/-! ### C5: the relative-URL acceptance rule of `enhancedLinks` -/

theorem isPrefixL_self (l : List Char) : isPrefixL l l = true := by
  induction l with
  | nil => rfl
  | cons c cs ih => simp [isPrefixL, ih]

theorem jsIncludes_self (s : String) : jsIncludes s s = true := by
  unfold jsIncludes
  cases h : s.data with
  | nil => simp [containsSubL, isPrefixL]
  | cons c cs => simp [containsSubL, isPrefixL_self]

/-- A relative href starts with `/` or `.`. -/
theorem rel_head {href : String}
    (h : strStarts href "/" = true ∨ strStarts href "./" = true ∨
      strStarts href "../" = true) :
    ∃ c l, href.data = c :: l ∧ (c = '/' ∨ c = '.') := by
  rcases hd : href.data with _ | ⟨c, l⟩
  · exfalso
    rcases h with h | h | h <;>
      (unfold strStarts at h; rw [hd] at h; simp [isPrefixL] at h)
  · refine ⟨c, l, rfl, ?_⟩
    rcases h with h | h | h <;>
      (unfold strStarts at h; rw [hd] at h; simp [isPrefixL] at h)
    · exact Or.inl h.symm
    · exact Or.inr h.1.symm
    · exact Or.inr h.1.symm

theorem strStarts_head_ne {s : String} {c : Char} {l : List Char}
    (hd : s.data = c :: l) {d : Char} {m : List Char} {p : String}
    (hp : p.data = d :: m) (hne : d ≠ c) : strStarts s p = false := by
  unfold strStarts
  rw [hd, hp]
  simp only [isPrefixL]
  rw [decide_eq_false hne]
  simp

/-- Claim C5 counterexample: the relative href `/abcd` is longer than 3
characters and contains no spaces, and the link text `click` is non-empty,
yet the rule degrades the link to its plain text (the validator first
rejects every URL shorter than 7 characters). -/
theorem C5_counterexample :
    3 < "/abcd".length ∧ jsIncludes "/abcd" " " = false ∧
    strStarts "/abcd" "/" = true ∧ jsTrim "click" = "click" ∧
    enhancedLinkReplacement (fun _ => true) (fun _ => none)
      (some "/abcd") "click" none = "click" ∧
    "click" ≠ "[click](/abcd)" := by
  decide

/-- Claim C5 as amended: for an anchor with a relative href (starting with
`/`, `./` or `../`) and non-empty trimmed link text, the URL validator
accepts the href exactly when it is at least 7 characters long and contains
no space, newline or tab; the link degrades to its plain text when the href
is rejected or longer than 150 characters; an accepted href of at most 150
characters renders as `[text](href)` when the text does not contain the
href, and otherwise (text equal to or containing the href) is rewritten for
readability: `[title-or-hostname](href)` when `new URL('https://' + href)`
resolves, and the plain text when it throws. -/
theorem C5_relative_link_rule (parse : String → Bool) (host : String → Option String)
    (href content : String) (title : Option String)
    (hrel : strStarts href "/" = true ∨ strStarts href "./" = true ∨
      strStarts href "../" = true)
    (htext : jsTrim content ≠ "") :
    (isValidUrl parse href =
      (decide (7 ≤ href.length) && !jsIncludes href "\n" && !jsIncludes href " " &&
        !jsIncludes href "\t")) ∧
    (isValidUrl parse href = false →
      enhancedLinkReplacement parse host (some href) content title = jsTrim content) ∧
    (isValidUrl parse href = true → 150 < href.length →
      enhancedLinkReplacement parse host (some href) content title = jsTrim content) ∧
    (isValidUrl parse href = true → href.length ≤ 150 →
      jsIncludes (jsTrim content) href = false →
      enhancedLinkReplacement parse host (some href) content title =
        "[" ++ jsTrim content ++ "](" ++ href ++ ")") ∧
    (isValidUrl parse href = true → href.length ≤ 150 →
      jsIncludes (jsTrim content) href = true →
      host ("https://" ++ href) = none →
      enhancedLinkReplacement parse host (some href) content title = jsTrim content) ∧
    (∀ hostname, isValidUrl parse href = true → href.length ≤ 150 →
      jsIncludes (jsTrim content) href = true →
      host ("https://" ++ href) = some hostname →
      enhancedLinkReplacement parse host (some href) content title =
        "[" ++ (match title with
                | some t =>
                  if t = "" then String.mk (replaceFirstL "www.".data [] hostname.data)
                  else t
                | none => String.mk (replaceFirstL "www.".data [] hostname.data)) ++
          "](" ++ href ++ ")") := by
  obtain ⟨c, l, hd, hc⟩ := rel_head hrel
  have hjs : strStarts href "javascript:" = false := by
    refine strStarts_head_ne hd (p := "javascript:") rfl ?_
    rcases hc with h | h <;> simp [h]
  have hml : strStarts href "mailto:" = false := by
    refine strStarts_head_ne hd (p := "mailto:") rfl ?_
    rcases hc with h | h <;> simp [h]
  have hhash : href ≠ "#" := by
    intro he
    subst he
    have h1 : c = '#' := by
      have h2 : ('#' : Char) :: ([] : List Char) = c :: l := hd
      exact (List.cons.inj h2).1.symm
    rcases hc with h | h <;> rw [h1] at h <;> exact absurd h (by decide)
  have hbd : matchesBareDomain href = false := by
    unfold matchesBareDomain
    have h1 : strStarts href "https://" = false := by
      refine strStarts_head_ne hd (p := "https://") rfl ?_
      rcases hc with h | h <;> simp [h]
    have h2 : strStarts href "http://" = false := by
      refine strStarts_head_ne hd (p := "http://") rfl ?_
      rcases hc with h | h <;> simp [h]
    rw [h1, h2]
    simp
  have hne : href ≠ "" := by
    intro he
    rw [he] at hd
    simp at hd
  have hrelb : (strStarts href "/" || strStarts href "./" || strStarts href "../") = true := by
    rcases hrel with h | h | h <;> simp [h]
  have hlen : href.length = href.data.length := rfl
  have hvalid : isValidUrl parse href =
      (decide (7 ≤ href.length) && !jsIncludes href "\n" && !jsIncludes href " " &&
        !jsIncludes href "\t") := by
    have hsh : (href == "#") = false := by
      simp only [beq_eq_false_iff_ne]
      exact hhash
    have hse : (href == "") = false := by
      simp only [beq_eq_false_iff_ne]
      exact hne
    unfold isValidUrl
    rw [hse, hjs, hml, hsh, hbd, hrelb]
    by_cases h7 : href.length < 7
    · have h7n : ¬(7 ≤ href.length) := by omega
      simp [h7, h7n]
    · have h7y : 7 ≤ href.length := by omega
      have h3 : 3 < href.length := by omega
      cases hn : jsIncludes href "\n" <;> cases hs : jsIncludes href " " <;>
        cases ht : jsIncludes href "\t" <;> simp [h7, h7y, h3]
  have hhttp : strStarts href "http" = false := by
    refine strStarts_head_ne hd (p := "http") rfl ?_
    rcases hc with h | h <;> simp [h]
  refine ⟨hvalid, ?_, ?_, ?_, ?_, ?_⟩
  · intro hv
    simp [enhancedLinkReplacement, htext, hv]
  · intro hv h150
    simp [enhancedLinkReplacement, htext, hv, h150]
  · intro hv h150 hni
    have hneq : jsTrim content ≠ href := by
      intro he
      rw [he] at hni
      rw [jsIncludes_self] at hni
      exact absurd hni (by simp)
    simp [enhancedLinkReplacement, htext, hv, Nat.not_lt.mpr h150, hneq, hni]
  · intro hv h150 hin hnone
    simp [enhancedLinkReplacement, htext, hv, Nat.not_lt.mpr h150, hin, hhttp, hnone]
  · intro hostname hv h150 hin hsome
    simp [enhancedLinkReplacement, htext, hv, Nat.not_lt.mpr h150, hin, hhttp, hsome]

/-- Witness for the amended C5 at the accepted href `/abcdef` (with link
text not containing it, and with link text equal to it against both a
resolving and a throwing URL oracle) and the rejected href `/abcd`. -/
theorem C5_relative_link_rule_witness :
    isValidUrl (fun _ => true) "/abcdef" = true ∧
    enhancedLinkReplacement (fun _ => true) (fun _ => none)
      (some "/abcdef") "click" none = "[click](/abcdef)" ∧
    enhancedLinkReplacement (fun _ => true) (fun _ => none)
      (some "/abcd") "click" none = "click" ∧
    enhancedLinkReplacement (fun _ => true) (fun _ => some "www.example.com")
      (some "/abcdef") "/abcdef" none = "[example.com](/abcdef)" ∧
    enhancedLinkReplacement (fun _ => true) (fun _ => none)
      (some "/abcdef") "/abcdef" none = "/abcdef" := by
  have h1 := C5_relative_link_rule (fun _ => true) (fun _ => none) "/abcdef" "click"
    none (Or.inl (by decide)) (by decide)
  have h2 := C5_relative_link_rule (fun _ => true) (fun _ => none) "/abcd" "click"
    none (Or.inl (by decide)) (by decide)
  have h3 := C5_relative_link_rule (fun _ => true) (fun _ => some "www.example.com")
    "/abcdef" "/abcdef" none (Or.inl (by decide)) (by decide)
  have h4 := C5_relative_link_rule (fun _ => true) (fun _ => none) "/abcdef" "/abcdef"
    none (Or.inl (by decide)) (by decide)
  refine ⟨by rw [h1.1]; decide, ?_, ?_, ?_, ?_⟩
  · have := h1.2.2.2.1 (by rw [h1.1]; decide) (by decide) (by decide)
    simpa using this
  · have := h2.2.1 (by rw [h2.1]; decide)
    simpa using this
  · have := h3.2.2.2.2.2 "www.example.com" (by rw [h3.1]; decide) (by decide)
      (by decide) rfl
    rw [this]
    rfl
  · have := h4.2.2.2.2.1 (by rw [h4.1]; decide) (by decide) (by decide) rfl
    simpa using this

/-! ### C7: the embedding circuit breaker -/

/-- Claim C7: the embedding circuit breaker is a three-state machine in which
every state (in particular every reachable one) satisfies: it transitions
from Closed to Open exactly when a failure is recorded whose updated failure
count reaches the threshold of 5; while Open it rejects guarded operations
(leaving the state unchanged) until more than the 5-minute cool-down has
elapsed since the last failure, after which the call is admitted as a probe
through Half-Open; and a successful probe in Half-Open returns the breaker to
Closed with the failure count reset to 0. -/
theorem C7_circuit_breaker (b : BreakerState) (now : Int) (ok : Bool) :
    (b.state = .closed →
      ((breakerExecute b now ok).1.state = .opened ↔
        ok = false ∧ 5 ≤ b.failureCount + 1)) ∧
    (b.state = .opened → now - b.lastFailureTime ≤ 300000 →
      breakerExecute b now ok = (b, .rejected)) ∧
    (b.state = .opened → 300000 < now - b.lastFailureTime →
      (breakerExecute b now ok).2 ≠ .rejected ∧
      (ok = true →
        breakerExecute b now ok =
          (⟨.closed, 0, b.lastFailureTime⟩, .succeeded))) ∧
    (b.state = .halfOpen → ok = true →
      breakerExecute b now ok = (⟨.closed, 0, b.lastFailureTime⟩, .succeeded)) := by
  refine ⟨?_, ?_, ?_, ?_⟩
  · intro hc
    unfold breakerExecute
    rw [hc]
    simp only [show (CBState.closed = CBState.opened) = False by simp, if_false]
    cases ok with
    | true =>
      simp [hc, show CBState.closed ≠ CBState.halfOpen by simp,
        show CBState.closed ≠ CBState.opened by simp]
    | false =>
      simp only [Bool.false_eq_true, if_false]
      unfold recordFailure failureThreshold
      simp only [hc]
      by_cases h5 : 5 ≤ b.failureCount + 1
      · simp [h5]
      · simp [h5, hc]
  · intro ho hcd
    unfold breakerExecute
    rw [ho]
    simp [breakerResetTimeout, show ¬(300000 < now - b.lastFailureTime) by omega]
  · intro ho hcd
    unfold breakerExecute
    rw [ho]
    simp only [if_pos rfl, breakerResetTimeout, if_pos hcd]
    constructor
    · cases ok with
      | true => simp
      | false => simp
    · intro hok
      subst hok
      simp
  · intro hh hok
    subst hok
    unfold breakerExecute
    simp [hh, show CBState.halfOpen ≠ CBState.opened by simp]

/-- Witness for C7 at concrete states: the fifth failure from Closed opens
the breaker; at exactly the 5-minute boundary an Open breaker still rejects;
past the boundary the probe is admitted; a successful Half-Open probe resets
to Closed with failure count 0. -/
theorem C7_circuit_breaker_witness :
    ((breakerExecute ⟨.closed, 4, 0⟩ 50 false).1.state = CBState.opened ↔
      (false = false ∧ 5 ≤ 4 + 1)) ∧
    breakerExecute ⟨.opened, 5, 0⟩ 300000 true = (⟨.opened, 5, 0⟩, .rejected) ∧
    (breakerExecute ⟨.opened, 5, 0⟩ 300001 true).2 ≠ .rejected ∧
    breakerExecute ⟨.opened, 5, 0⟩ 300001 true = (⟨.closed, 0, 0⟩, .succeeded) ∧
    breakerExecute ⟨.halfOpen, 5, 100⟩ 200 true = (⟨.closed, 0, 100⟩, .succeeded) :=
  ⟨(C7_circuit_breaker ⟨.closed, 4, 0⟩ 50 false).1 rfl,
   (C7_circuit_breaker ⟨.opened, 5, 0⟩ 300000 true).2.1 rfl (by decide),
   ((C7_circuit_breaker ⟨.opened, 5, 0⟩ 300001 true).2.2.1 rfl (by decide)).1,
   ((C7_circuit_breaker ⟨.opened, 5, 0⟩ 300001 true).2.2.1 rfl (by decide)).2 rfl,
   (C7_circuit_breaker ⟨.halfOpen, 5, 100⟩ 200 true).2.2.2 rfl rfl⟩

/-! ### C10: the retry loop of `SummarizationService.summarize` -/

/-- A failing attempt produces an error result from the race. -/
theorem raceAttempt_fails {f : SummFn} {text : String} {p : SummParams} {k : Nat}
    (h : attemptFails f text p k) :
    ∃ e, (raceAttempt f text p k).1 = .error e := by
  unfold raceAttempt
  rcases h with h | he
  · rw [if_neg (by omega)]
    exact ⟨"Summarization timeout", rfl⟩
  · by_cases hd : (f text p k).1 < summTimeoutMs
    · rw [if_pos hd]
      rcases hv : (f text p k).2 with e | v
      · exact ⟨e, rfl⟩
      · rw [hv] at he
        simp [exceptIsError] at he
    · rw [if_neg hd]
      exact ⟨"Summarization timeout", rfl⟩

/-- A successful race result means the attempt did not fail. -/
theorem raceAttempt_ok {f : SummFn} {text : String} {p : SummParams} {k : Nat}
    {v : String} (h : (raceAttempt f text p k).1 = .ok v) :
    ¬attemptFails f text p k := by
  intro hf
  obtain ⟨e, he⟩ := raceAttempt_fails hf
  rw [h] at he
  simp at he

/-- Any attempt's raced duration is at most the 30 s timeout. -/
theorem raceAttempt_elapsed_le (f : SummFn) (text : String) (p : SummParams) (k : Nat) :
    (raceAttempt f text p k).2 ≤ summTimeoutMs := by
  unfold raceAttempt
  by_cases hd : (f text p k).1 < summTimeoutMs
  · rw [if_pos hd]; omega
  · rw [if_neg hd]

/-- Claim C10: every call of `SummarizationService.summarize` on an
initialized service makes at most 2 backend attempts, each raced against the
30-second timeout, with a 1-second pause between attempts; it returns an
error only after the final (second) attempt has failed, a permanently failing
backend yields an error rather than an unbounded hang, and the modelled call
time is at most 30 s + 1 s + 30 s = 61 s, not 30 s. -/
theorem C10_summarize_retries (env : Env) (st : SummState) (f : SummFn)
    (text : String) (p : SummParams) (hst : st.summarizer = some f) :
    ((serviceSummarize env st text p).1.attempts ≤ 2) ∧
    ((serviceSummarize env st text p).1.elapsed ≤ 61000) ∧
    ((∃ e, (serviceSummarize env st text p).1.result = .error e) →
      (serviceSummarize env st text p).1.attempts = 2 ∧
      attemptFails f text p 1) ∧
    ((∀ k, attemptFails f text p k) →
      ∃ e, (serviceSummarize env st text p).1.result = .error e) := by
  have hinit : ensureInit env st = (st, 0) := by
    unfold ensureInit
    rw [hst]
    simp
  have hss : serviceSummarize env st text p =
      (⟨(attemptsGo f text p summMaxRetries 0 0 0).result,
        0 + (attemptsGo f text p summMaxRetries 0 0 0).elapsed,
        (attemptsGo f text p summMaxRetries 0 0 0).attempts⟩, st) := by
    simp only [serviceSummarize, hinit, hst]
  rw [hss]
  simp only [Nat.zero_add]
  have h0 := raceAttempt_elapsed_le f text p 0
  have h1 := raceAttempt_elapsed_le f text p 1
  unfold summTimeoutMs at h0 h1
  have hgo : attemptsGo f text p summMaxRetries 0 0 0 =
      attemptsGo f text p 2 0 0 0 := rfl
  rw [hgo]
  unfold attemptsGo
  rcases hr0 : (raceAttempt f text p 0).1 with e0 | v0
  · -- first attempt errored: retry once after the 1 s pause
    simp only [hr0, Nat.zero_add, one_ne_zero, if_false]
    unfold attemptsGo
    rcases hr1 : (raceAttempt f text p 1).1 with e1 | v1
    · simp only [hr1, if_true, reduceCtorEq, if_pos]
      refine ⟨by omega, by omega, ?_, ?_⟩
      · intro _
        refine ⟨by trivial, ?_⟩
        by_contra hnf
        unfold attemptFails at hnf
        push_neg at hnf
        obtain ⟨hd, hne⟩ := hnf
        unfold raceAttempt at hr1
        rw [if_pos hd] at hr1
        rcases hv : (f text p 1).2 with e | v
        · rw [hv] at hne
          simp [exceptIsError] at hne
        · rw [hv] at hr1
          simp at hr1
      · intro _
        exact ⟨e1, rfl⟩
    · simp only [hr1, if_true, reduceCtorEq, if_pos]
      refine ⟨by omega, by omega, ?_, ?_⟩
      · rintro ⟨e, he⟩
        simp at he
      · intro hall
        obtain ⟨e, he⟩ := raceAttempt_fails (hall 1)
        rw [hr1] at he
        simp at he
  · -- first attempt succeeded
    simp only [hr0]
    refine ⟨by omega, by omega, ?_, ?_⟩
    · rintro ⟨e, he⟩
      simp at he
    · intro hall
      obtain ⟨e, he⟩ := raceAttempt_fails (hall 0)
      rw [hr0] at he
      simp at he

/-- Witness for C10 with a backend that always throws immediately: exactly
two attempts, an error result, and 1 s of modelled pause time. -/
theorem C10_summarize_retries_witness :
    (serviceSummarize trivialEnv stFail "t" pZero).1.attempts ≤ 2 ∧
    (serviceSummarize trivialEnv stFail "t" pZero).1.elapsed ≤ 61000 ∧
    (∃ e, (serviceSummarize trivialEnv stFail "t" pZero).1.result = .error e) :=
  ⟨(C10_summarize_retries trivialEnv stFail failFn "t" pZero rfl).1,
   (C10_summarize_retries trivialEnv stFail failFn "t" pZero rfl).2.1,
   (C10_summarize_retries trivialEnv stFail failFn "t" pZero rfl).2.2.2
     (fun _ => Or.inr rfl)⟩

/-! ### C2: the fallback chain of `intelligentSummarization` -/

/-- An already-initialized service is left untouched by `initialize`. -/
theorem ensureInit_some (env : Env) (st : SummState) (f : SummFn)
    (hst : st.summarizer = some f) : ensureInit env st = (st, 0) := by
  unfold ensureInit
  rw [hst]
  simp

/-- Against a backend whose every attempt fails, `summarize` returns an error
and leaves the (already initialized) state unchanged. -/
theorem serviceSummarize_allFail (env : Env) (st : SummState) (f : SummFn)
    (s : String) (p : SummParams) (hst : st.summarizer = some f)
    (hfail : ∀ k, attemptFails f s p k) :
    (∃ e, (serviceSummarize env st s p).1.result = .error e) ∧
    (serviceSummarize env st s p).2 = st := by
  have hss : serviceSummarize env st s p =
      (⟨(attemptsGo f s p summMaxRetries 0 0 0).result,
        0 + (attemptsGo f s p summMaxRetries 0 0 0).elapsed,
        (attemptsGo f s p summMaxRetries 0 0 0).attempts⟩, st) := by
    simp only [serviceSummarize, ensureInit_some env st f hst, hst]
  rw [hss]
  refine ⟨?_, rfl⟩
  obtain ⟨e0, he0⟩ := raceAttempt_fails (hfail 0)
  obtain ⟨e1, he1⟩ := raceAttempt_fails (hfail 1)
  have hgo : attemptsGo f s p summMaxRetries 0 0 0 = attemptsGo f s p 2 0 0 0 := rfl
  rw [hgo]
  unfold attemptsGo
  simp only [he0, Nat.zero_add, one_ne_zero, if_false]
  unfold attemptsGo
  simp only [he1, if_true, reduceCtorEq, if_pos]
  exact ⟨e1, rfl⟩

/-- A string of positive length is non-empty. -/
theorem str_ne_empty_of_len {s : String} (h : 0 < s.length) : s ≠ "" := by
  intro he
  rw [he] at h
  simp at h

/-- `createGeneralFallback` on a non-empty key-info list is non-empty. -/
theorem createGeneralFallback_ne_empty (keyInfo : List String)
    (cls : ContentClassification) (hk : keyInfo ≠ []) :
    createGeneralFallback keyInfo cls ≠ "" := by
  unfold createGeneralFallback
  rw [if_neg hk]
  by_cases he : cls.keyEntities.take 3 ≠ []
  · rw [if_pos he]
    apply str_ne_empty_of_len
    rw [String.length_append]
    have : (0 : Nat) < ("Key topics: " ++ joinWith ", " (cls.keyEntities.take 3) ++
        ". Summary: " ++ joinWith "; " (keyInfo.take 6)).length := by
      rw [String.length_append, String.length_append, String.length_append]
      have h12 : ("Key topics: " : String).length = 12 := rfl
      omega
    rw [String.length_append, String.length_append, String.length_append] at *
    have h12 : ("Key topics: " : String).length = 12 := rfl
    omega
  · rw [if_neg he]
    apply str_ne_empty_of_len
    rw [String.length_append, String.length_append]
    have h9 : ("Summary: " : String).length = 9 := rfl
    omega

/-- The catch handler returns one of the three documented fallbacks, and a
non-empty string when the input text has at least 50 non-blank characters. -/
theorem summFallback_spec (env : Env) (text : String) (target : Int)
    (cls : ContentClassification) (hlen : 50 ≤ (jsTrim text).length) :
    summFallback env text target cls ≠ "" ∧
    (summFallback env text target cls =
        naturalExtractiveSummary env text (ceilDiv target 20).toNat ∨
      summFallback env text target cls =
        createGeneralFallback (extractKeyInformation env text) cls ∨
      summFallback env text target cls = text) := by
  have htext : text ≠ "" := by
    intro he
    rw [he] at hlen
    have : jsTrim "" = "" := rfl
    rw [this] at hlen
    simp at hlen
  unfold summFallback
  by_cases h1 : 50 < (naturalExtractiveSummary env text (ceilDiv target 20).toNat).length
  · rw [if_pos h1]
    exact ⟨str_ne_empty_of_len (by omega), Or.inl rfl⟩
  · rw [if_neg h1]
    by_cases h2 : extractKeyInformation env text ≠ []
    · rw [if_pos h2]
      exact ⟨createGeneralFallback_ne_empty _ _ h2, Or.inr (Or.inl rfl)⟩
    · rw [if_neg h2]
      exact ⟨htext, Or.inr (Or.inr rfl)⟩

/-- Claim C2: for every chunk submitted by `summarizeMarkdown` (at least 50
non-blank characters, target length between 40 and 90 words), if every
invocation of the (initialized) summarization backend fails,
`intelligentSummarization` still returns — without propagating the backend
error — a non-empty string that is the extractive top-scored-sentence
summary, the key-facts concatenation, or the original chunk verbatim. -/
theorem C2_summarization_fallback (env : Env) (st : SummState) (text : String)
    (target : Int) (cls : ContentClassification) (f : SummFn)
    (hlen : 50 ≤ (jsTrim text).length) (ht1 : 40 ≤ target) (ht2 : target ≤ 90)
    (hst : st.summarizer = some f)
    (hfail : ∀ s p k, attemptFails f s p k) :
    ∃ out, (intelligentSummarization env st text target cls).1 = .ok out ∧
      out ≠ "" ∧
      (out = naturalExtractiveSummary env text (ceilDiv target 20).toNat ∨
       out = createGeneralFallback (extractKeyInformation env text) cls ∨
       out = text) := by
  have htext : ¬(text = "" ∨ (jsTrim text).length < 50) := by
    push_neg
    constructor
    · intro he
      rw [he] at hlen
      have : jsTrim "" = "" := rfl
      rw [this] at hlen
      simp at hlen
    · omega
  have htarget : ¬(target < 10 ∨ 1000 < target) := by omega
  unfold intelligentSummarization
  rw [if_neg htext, if_neg htarget, ensureInit_some env st f hst]
  simp only [hst]
  simp only [intelligentSummarizationRun]
  obtain ⟨⟨e, he⟩, hstate⟩ := serviceSummarize_allFail env st f text
    ⟨(target * (chooseStrategy cls).ratioNum).fdiv 10, (target * 11).fdiv 10,
     if (chooseStrategy cls).compression = .aggressive then 4 else 3,
     cls.contentType = .narrative, true⟩ hst (fun k => hfail _ _ k)
  rw [he]
  obtain ⟨hne, hdisj⟩ := summFallback_spec env text target cls hlen
  exact ⟨summFallback env text target cls, rfl, hne, hdisj⟩

/-- Witness for C2: an always-throwing backend on a concrete 50-character
chunk with target length 60. -/
theorem C2_summarization_fallback_witness :
    50 ≤ (jsTrim c2text).length ∧
    ∃ out, (intelligentSummarization trivialEnv stFail c2text 60 clsZero).1 = .ok out ∧
      out ≠ "" ∧
      (out = naturalExtractiveSummary trivialEnv c2text (ceilDiv 60 20).toNat ∨
       out = createGeneralFallback (extractKeyInformation trivialEnv c2text) clsZero ∨
       out = c2text) :=
  ⟨by decide,
   C2_summarization_fallback trivialEnv stFail c2text 60 clsZero failFn
     (by decide) (by decide) (by decide) rfl (fun _ _ _ => Or.inr rfl)⟩

/-! ### C4: the quality gate of `summarizeMarkdown` -/

/-- Claim C4: a section whose quality score is below 25 is entirely absent
from the output of the per-section loop of `summarizeMarkdown`: the loop
behaves exactly as if the section were not in its input, so the section is
neither summarized (no backend interaction, no service-state change) nor kept
verbatim. -/
theorem C4_low_quality_dropped (env : Env) (adaptive : Nat) (st : SummState)
    (pre post : List String) (sec : String)
    (hq : assessContentQuality (jsTrim sec) < 25) :
    processSections env adaptive st (pre ++ sec :: post) =
      processSections env adaptive st (pre ++ post) := by
  induction pre generalizing st with
  | nil =>
    simp only [List.nil_append]
    conv_lhs => rw [processSections]
    by_cases h1 : jsTrim sec = ""
    · rw [if_pos h1]
    · rw [if_neg h1, if_pos hq]
  | cons x xs ih =>
    simp only [List.cons_append, processSections, List.append_eq, ih]

/-- Witness for C4 at the all-navigation section `"Home About Contact Menu"`
(quality score 21 < 25). -/
theorem C4_low_quality_dropped_witness :
    assessContentQuality (jsTrim "Home About Contact Menu") < 25 ∧
    processSections trivialEnv 700 stFail ["x", "Home About Contact Menu"] =
      processSections trivialEnv 700 stFail ["x"] :=
  ⟨by decide,
   C4_low_quality_dropped trivialEnv 700 stFail ["x"] [] "Home About Contact Menu"
     (by decide)⟩

/-! ### C1: `cleanHtml` on empty / trivial input -/

/-- Claim C1 counterexample: `cleanHtml("", url)` and
`cleanHtml("<html><body></body></html>", url)` do not return an empty
string — both inputs fail the `< 100` character validation guard and the
wrapped validation error is thrown (re-raised by the catch block). -/
theorem C1_counterexample :
    cleanHtml trivialEnv stFail "" "https://example.com" =
      (.error
        "Error cleaning HTML from https://example.com: HTML content too short or empty",
       stFail) ∧
    cleanHtml trivialEnv stFail "<html><body></body></html>" "https://example.com" =
      (.error
        "Error cleaning HTML from https://example.com: HTML content too short or empty",
       stFail) := by
  exact ⟨rfl, rfl⟩

/-- Claim C1 as amended: for every url and every `rawHtml` whose trimmed
length is below 100 characters (which covers both `""` and
`"<html><body></body></html>"`), `cleanHtml` throws the wrapped validation
error `Error cleaning HTML from {url}: HTML content too short or empty`
instead of returning an empty string; the empty-string return is reserved for
inputs that pass validation but yield no readable content. -/
theorem C1_short_input_throws (env : Env) (st : SummState) (rawHtml url : String)
    (hlen : (jsTrim rawHtml).length < 100) :
    cleanHtml env st rawHtml url =
      (.error ("Error cleaning HTML from " ++ url ++
        ": HTML content too short or empty"), st) := by
  unfold cleanHtml cleanHtmlInner cleanHtmlPre
  rw [if_pos (Or.inr hlen)]
  show ((Except.error ("Error cleaning HTML from " ++ url ++ ": " ++
      "HTML content too short or empty") : Except String String), st) = _
  rw [String.append_assoc]
  rw [show (": " ++ "HTML content too short or empty" : String) =
    ": HTML content too short or empty" from rfl]

/-- Witness for the amended C1 at the empty-body document. -/
theorem C1_short_input_throws_witness :
    cleanHtml trivialEnv stFail "<html><body></body></html>" "u" =
      (.error "Error cleaning HTML from u: HTML content too short or empty", stFail) :=
  C1_short_input_throws trivialEnv stFail "<html><body></body></html>" "u" (by decide)

/-! ### C3: `intelligentChunk` never drops content -/

theorem nonWsL_append (a b : List Char) : nonWsL (a ++ b) = nonWsL a ++ nonWsL b := by
  simp [nonWsL]

theorem nonWsL_cons (c : Char) (l : List Char) :
    nonWsL (c :: l) = nonWsL [c] ++ nonWsL l := by
  by_cases h : isJsWs c <;> simp [nonWsL, List.filter_cons, h]

theorem nonWsL_cons_ws {c : Char} (l : List Char) (h : isJsWs c = true) :
    nonWsL (c :: l) = nonWsL l := by
  simp [nonWsL, List.filter_cons, h]

theorem nonWsL_dropWhile (l : List Char) :
    nonWsL (l.dropWhile isJsWs) = nonWsL l := by
  induction l with
  | nil => rfl
  | cons c cs ih =>
    cases h : isJsWs c
    · simp [List.dropWhile_cons, h]
    · simp only [List.dropWhile_cons, h, if_true, ih, nonWsL_cons_ws cs h]

theorem nonWsL_reverse (l : List Char) : nonWsL l.reverse = (nonWsL l).reverse := by
  simp [nonWsL]

theorem nonWsL_jsTrimL (l : List Char) : nonWsL (jsTrimL l) = nonWsL l := by
  unfold jsTrimL
  rw [nonWsL_reverse, nonWsL_dropWhile, nonWsL_reverse, nonWsL_dropWhile,
    List.reverse_reverse]

theorem nonWs_jsTrim (s : String) : nonWs (jsTrim s) = nonWs s := by
  show nonWsL (jsTrimL s.data) = nonWsL s.data
  exact nonWsL_jsTrimL s.data

theorem nonWs_of_trim_eq_nil {s : String} (h : jsTrim s = "") : nonWs s = [] := by
  rw [← nonWs_jsTrim, h]
  rfl

theorem contentJoin_append (a b : List String) :
    contentJoin (a ++ b) = contentJoin a ++ contentJoin b := by
  simp [contentJoin]

theorem contentJoin_cons (s : String) (l : List String) :
    contentJoin (s :: l) = nonWs s ++ contentJoin l := by
  simp [contentJoin]

theorem contentJoin_pushIf (cc : String) (out : List String) :
    contentJoin (pushIf cc out) = contentJoin out ++ nonWs cc := by
  unfold pushIf
  by_cases h : cc = ""
  · rw [if_pos h, h]
    show contentJoin out = contentJoin out ++ []
    rw [List.append_nil]
  · rw [if_neg h, contentJoin_append]
    simp [contentJoin]

theorem wsRunNl_take_ws : ∀ l : List Char, nonWsL (l.take (wsRunNl l).2) = [] := by
  intro l
  induction l with
  | nil => rfl
  | cons c cs ih =>
    simp only [wsRunNl]
    by_cases hw : isJsWs c
    · rw [if_pos hw]
      by_cases hc : c = '\n'
      · rw [if_pos hc]
        by_cases h0 : (wsRunNl cs).1 = 0
        · rw [if_pos h0]
          show nonWsL ((c :: cs).take 1) = []
          simp [nonWsL, List.filter_cons, hw]
        · rw [if_neg h0]
          show nonWsL ((c :: cs).take ((wsRunNl cs).2 + 1)) = []
          rw [List.take_succ_cons, nonWsL_cons_ws _ hw, ih]
      · rw [if_neg hc]
        by_cases h0 : (wsRunNl cs).1 = 0
        · rw [if_pos h0]; rfl
        · rw [if_neg h0]
          show nonWsL ((c :: cs).take ((wsRunNl cs).2 + 1)) = []
          rw [List.take_succ_cons, nonWsL_cons_ws _ hw, ih]
    · rw [if_neg hw]; rfl

theorem splitParasGo_content :
    ∀ (fuel : Nat) (l acc : List Char),
      ((splitParasGo fuel l acc).map nonWsL).flatten = nonWsL acc.reverse ++ nonWsL l := by
  intro fuel
  induction fuel with
  | zero =>
    intro l acc
    simp [splitParasGo, nonWsL_append]
  | succ fuel ih =>
    intro l acc
    match l with
    | [] => simp [splitParasGo, nonWsL]
    | c :: cs =>
      by_cases hsp : c = '\n' ∧ 1 ≤ (wsRunNl cs).1
      · simp only [splitParasGo, if_pos hsp, List.map_cons, List.flatten_cons, ih,
          List.reverse_nil]
        have hcs : nonWsL cs = nonWsL (cs.drop (wsRunNl cs).2) := by
          conv_lhs => rw [← List.take_append_drop (wsRunNl cs).2 cs]
          rw [nonWsL_append, wsRunNl_take_ws, List.nil_append]
        rw [← hcs, nonWsL_cons_ws cs (by rw [hsp.1]; rfl)]
        rfl
      · simp only [splitParasGo, if_neg hsp, ih, List.reverse_cons, nonWsL_append,
          List.append_assoc, ← nonWsL_cons]

theorem splitSentGo_content :
    ∀ (fuel : Nat) (prev : Option Char) (l acc : List Char),
      ((splitSentGo fuel prev l acc).map nonWsL).flatten =
        nonWsL acc.reverse ++ nonWsL l := by
  intro fuel
  induction fuel with
  | zero =>
    intro prev l acc
    simp [splitSentGo, nonWsL_append]
  | succ fuel ih =>
    intro prev l acc
    match l with
    | [] => simp [splitSentGo, nonWsL]
    | c :: cs =>
      by_cases hsp : isJsWs c ∧ isTermOpt prev = true
      · simp only [splitSentGo, if_pos hsp, List.map_cons, List.flatten_cons, ih,
          List.reverse_nil]
        rw [nonWsL_dropWhile, nonWsL_cons_ws cs hsp.1]
        rfl
      · simp only [splitSentGo, if_neg hsp, ih, List.reverse_cons, nonWsL_append,
          List.append_assoc, ← nonWsL_cons]

theorem matchHeaderAt_content (l cap rest : List Char)
    (h : matchHeaderAt l = some (cap, rest)) :
    nonWsL l = nonWsL cap ++ nonWsL rest := by
  rcases l with _ | ⟨c, l1⟩
  · simp [matchHeaderAt] at h
  · simp only [matchHeaderAt] at h
    by_cases hc : c = '\n'
    swap
    · rw [if_neg hc] at h; simp at h
    rw [if_pos hc] at h
    by_cases hh : 1 ≤ (l1.takeWhile (fun d => d = '#')).length ∧
        (l1.takeWhile (fun d => d = '#')).length ≤ 6
    swap
    · rw [if_neg hh] at h; simp at h
    rw [if_pos hh] at h
    rcases ht : tryHeaderT (l1.drop (l1.takeWhile (fun d => d = '#')).length)
        ((l1.drop (l1.takeWhile (fun d => d = '#')).length).takeWhile isJsWs).length with
      _ | ⟨t, body, rest2⟩
    · rw [ht] at h; simp at h
    · rw [ht] at h
      simp only [Option.some.injEq, Prod.mk.injEq] at h
      obtain ⟨hcap, hrest⟩ := h
      obtain ⟨-, -, hdrop⟩ := tryHeaderT_spec _ _ _ _ _ ht
      subst hc
      subst hcap
      subst hrest
      rw [@nonWsL_cons_ws '\n' l1 rfl]
      have hl2 : l1.drop (l1.takeWhile (fun d => d = '#')).length =
          (l1.drop (l1.takeWhile (fun d => d = '#')).length).take t ++
            (body ++ '\n' :: rest2) := by
        conv_lhs =>
          rw [← List.take_append_drop t
            (l1.drop (l1.takeWhile (fun d => d = '#')).length), hdrop]
      have hl1 : l1 = l1.take (l1.takeWhile (fun d => d = '#')).length ++
          ((l1.drop (l1.takeWhile (fun d => d = '#')).length).take t ++
            (body ++ '\n' :: rest2)) := by
        conv_lhs =>
          rw [← List.take_append_drop (l1.takeWhile (fun d => d = '#')).length l1,
            hl2]
      conv_lhs => rw [hl1]
      simp only [nonWsL_append, List.append_assoc]
      rw [@nonWsL_cons_ws '\n' rest2 rfl]

theorem splitHeadersGo_content :
    ∀ (fuel : Nat) (l acc : List Char),
      ((splitHeadersGo fuel l acc).map nonWsL).flatten =
        nonWsL acc.reverse ++ nonWsL l := by
  intro fuel
  induction fuel with
  | zero =>
    intro l acc
    simp [splitHeadersGo, nonWsL_append]
  | succ fuel ih =>
    intro l acc
    match l with
    | [] => simp [splitHeadersGo, nonWsL]
    | c :: cs =>
      rcases hm : matchHeaderAt (c :: cs) with _ | ⟨cap, rest⟩
      · simp only [splitHeadersGo, hm, ih, List.reverse_cons, nonWsL_append,
          List.append_assoc, ← nonWsL_cons]
      · simp only [splitHeadersGo, hm, List.map_cons, List.flatten_cons, ih,
          List.reverse_nil]
        rw [matchHeaderAt_content _ _ _ hm]
        simp [List.append_assoc, nonWsL]

theorem contentJoin_map_mk (pieces : List (List Char)) :
    contentJoin (pieces.map String.mk) = (pieces.map nonWsL).flatten := by
  unfold contentJoin
  rw [List.map_map]
  rfl

theorem splitParas_content (s : String) : contentJoin (splitParas s) = nonWs s := by
  unfold splitParas
  rw [contentJoin_map_mk, splitParasGo_content]
  rfl

theorem splitSent_content (s : String) : contentJoin (splitSent s) = nonWs s := by
  unfold splitSent
  rw [contentJoin_map_mk, splitSentGo_content]
  rfl

theorem splitHeaders_content (s : String) : contentJoin (splitHeaders s) = nonWs s := by
  unfold splitHeaders
  rw [contentJoin_map_mk, splitHeadersGo_content]
  rfl

theorem nonWs_joinNN (cc p : String) : nonWs (joinNN cc p) = nonWs cc ++ nonWs p := by
  unfold joinNN
  by_cases h : cc = ""
  · rw [if_pos h, h]; rfl
  · rw [if_neg h]
    show nonWsL (cc ++ "\n\n" ++ p).data = _
    rw [String.data_append, String.data_append, nonWsL_append, nonWsL_append]
    rw [show nonWsL "\n\n".data = [] from rfl, List.append_nil]
    rfl

theorem nonWs_joinSp (cc p : String) : nonWs (joinSp cc p) = nonWs cc ++ nonWs p := by
  unfold joinSp
  by_cases h : cc = ""
  · rw [if_pos h, h]; rfl
  · rw [if_neg h]
    show nonWsL (cc ++ " " ++ p).data = _
    rw [String.data_append, String.data_append, nonWsL_append, nonWsL_append]
    rw [show nonWsL " ".data = [] from rfl, List.append_nil]
    rfl

theorem packSentencesGo_content (maxW : Nat) :
    ∀ (ss : List String) (sc : String) (out : List String),
      contentJoin (packSentencesGo maxW ss sc out) =
        contentJoin out ++ nonWs sc ++ contentJoin ss := by
  intro ss
  induction ss with
  | nil =>
    intro sc out
    simp only [packSentencesGo, contentJoin_pushIf]
    simp [contentJoin]
  | cons s rest ih =>
    intro sc out
    by_cases hf : jsWords (joinSp sc s) ≤ maxW
    · simp only [packSentencesGo, if_pos hf, ih, nonWs_joinSp, contentJoin_cons]
      simp [List.append_assoc]
    · simp only [packSentencesGo, if_neg hf, ih, contentJoin_pushIf, contentJoin_cons]
      simp [List.append_assoc]

theorem packSentences_content (maxW : Nat) (para : String) :
    contentJoin (packSentences maxW para) = nonWs para := by
  unfold packSentences
  rw [packSentencesGo_content, splitSent_content]
  rfl

theorem packPartsGo_content (maxW : Nat) :
    ∀ (ps : List String) (cc : String) (out : List String),
      contentJoin (packPartsGo maxW ps cc out) =
        contentJoin out ++ nonWs cc ++ contentJoin ps := by
  intro ps
  induction ps with
  | nil =>
    intro cc out
    simp only [packPartsGo, contentJoin_pushIf]
    simp [contentJoin]
  | cons p rest ih =>
    intro cc out
    by_cases h1 : jsTrim p = ""
    · simp only [packPartsGo, if_pos h1, ih, contentJoin_cons, nonWs_of_trim_eq_nil h1]
      simp [List.append_assoc]
    · by_cases hf : jsWords (joinNN cc p) ≤ maxW
      · simp only [packPartsGo, if_neg h1, if_pos hf, ih, nonWs_joinNN, contentJoin_cons]
        simp [List.append_assoc]
      · simp only [packPartsGo, if_neg h1, if_neg hf, ih, contentJoin_pushIf,
          contentJoin_cons]
        simp [List.append_assoc]

theorem packParasGo_sublist (maxW : Nat) :
    ∀ (ps : List String) (cc : String) (out : List String),
      List.Sublist (contentJoin out ++ nonWs cc ++ contentJoin ps)
        (contentJoin (packParasGo maxW ps cc out)) := by
  intro ps
  induction ps with
  | nil =>
    intro cc out
    simp only [packParasGo, contentJoin_pushIf]
    simp [contentJoin]
  | cons p rest ih =>
    intro cc out
    by_cases h1 : jsTrim p = ""
    · simp only [packParasGo, if_pos h1]
      have h2 := ih cc out
      simp only [contentJoin_cons, nonWs_of_trim_eq_nil h1, List.nil_append]
      exact h2
    · by_cases hf : jsWords (joinNN cc p) ≤ maxW
      · simp only [packParasGo, if_neg h1, if_pos hf]
        have h2 := ih (joinNN cc p) out
        rw [nonWs_joinNN] at h2
        simp only [contentJoin_cons, List.append_assoc] at h2 ⊢
        exact h2
      · by_cases hov : maxW < jsWords p
        · simp only [packParasGo, if_neg h1, if_neg hf, if_pos hov]
          have h2 := ih cc (pushIf cc out ++ packSentences maxW p)
          rw [contentJoin_append, contentJoin_pushIf, packSentences_content] at h2
          simp only [contentJoin_cons, List.append_assoc] at h2 ⊢
          refine List.Sublist.trans ?_ h2
          exact ((((List.sublist_append_right (nonWs cc)
            (contentJoin rest)).append_left (nonWs p)).append_left
              (nonWs cc)).append_left (contentJoin out))
        · simp only [packParasGo, if_neg h1, if_neg hf, if_neg hov]
          have h2 := ih p (pushIf cc out)
          rw [contentJoin_pushIf] at h2
          simp only [contentJoin_cons, List.append_assoc] at h2 ⊢
          exact h2

theorem chunkSection_sublist (maxW : Nat) (trimmed : String) :
    List.Sublist (nonWs trimmed) (contentJoin (chunkSection maxW trimmed)) := by
  unfold chunkSection
  by_cases hh : 1 < (splitHeaders trimmed).length
  · rw [if_pos hh, packPartsGo_content, splitHeaders_content]
    exact List.Sublist.refl _
  · rw [if_neg hh]
    have h := packParasGo_sublist maxW (splitParas trimmed) "" []
    rw [splitParas_content] at h
    exact h

theorem chunkFold_sublist (maxW : Nat) :
    ∀ (secs : List String) (acc : List String),
      List.Sublist (contentJoin acc ++ contentJoin secs)
        (contentJoin (secs.foldl (chunkStep maxW) acc)) := by
  intro secs
  induction secs with
  | nil =>
    intro acc
    simp only [List.foldl_nil]
    simp [contentJoin]
  | cons sec rest ih =>
    intro acc
    simp only [List.foldl_cons]
    by_cases h1 : jsTrim sec = ""
    · rw [show chunkStep maxW acc sec = acc from by simp [chunkStep, h1]]
      have h2 := ih acc
      have hsec : nonWs sec = [] := by
        rw [← nonWs_jsTrim, h1]; rfl
      simp only [contentJoin_cons, hsec, List.nil_append]
      exact h2
    · by_cases hf : jsWords (jsTrim sec) ≤ maxW
      · rw [show chunkStep maxW acc sec = acc ++ [jsTrim sec] from by
          simp [chunkStep, h1, hf]]
        have h2 := ih (acc ++ [jsTrim sec])
        rw [contentJoin_append] at h2
        have hsec : contentJoin [jsTrim sec] = nonWs sec := by
          simp [contentJoin, nonWs_jsTrim]
        rw [hsec] at h2
        simp only [contentJoin_cons, List.append_assoc] at h2 ⊢
        exact h2
      · rw [show chunkStep maxW acc sec = acc ++ chunkSection maxW (jsTrim sec) from by
          simp [chunkStep, h1, hf]]
        have h2 := ih (acc ++ chunkSection maxW (jsTrim sec))
        rw [contentJoin_append] at h2
        have hstep : List.Sublist (nonWs sec)
            (contentJoin (chunkSection maxW (jsTrim sec))) := by
          rw [← nonWs_jsTrim]
          exact chunkSection_sublist maxW (jsTrim sec)
        simp only [contentJoin_cons, List.append_assoc] at h2 ⊢
        refine List.Sublist.trans ?_ h2
        exact ((hstep.append_right (contentJoin rest)).append_left (contentJoin acc))

theorem contentJoin_filter_keep (l : List String) :
    contentJoin (l.filter keepChunk) = contentJoin l := by
  induction l with
  | nil => rfl
  | cons c rest ih =>
    by_cases h : keepChunk c = true
    · simp only [List.filter_cons, h, if_true, contentJoin_cons, ih]
    · have hz : (jsTrim c).data.length = 0 := by
        unfold keepChunk at h
        simp at h
        exact h
      have hc : nonWs c = [] := by
        rw [← nonWs_jsTrim]
        show nonWsL (jsTrim c).data = []
        rw [List.eq_nil_of_length_eq_zero hz]
        rfl
      simp [List.filter_cons, h, contentJoin_cons, ih, hc]

theorem splitRuns_ne_nil (p : Char → Bool) : ∀ l : List Char, splitRuns p l ≠ [] := by
  intro l
  induction l with
  | nil => simp [splitRuns]
  | cons c cs ih =>
    by_cases hc : p c
    · rcases cs with _ | ⟨d, ds⟩
      · simp [splitRuns, hc]
      · by_cases hd : p d
        · simpa [splitRuns, hc, hd] using ih
        · simp [splitRuns, hc, hd]
    · rcases hr : splitRuns p cs with _ | ⟨h, t⟩
      · exact absurd hr ih
      · simp [splitRuns, hc, hr]

theorem splitRuns_length_pos (p : Char → Bool) (l : List Char) :
    1 ≤ (splitRuns p l).length := by
  rcases hr : splitRuns p l with _ | ⟨h, t⟩
  · exact absurd hr (splitRuns_ne_nil p l)
  · simp

theorem splitRuns_pp (p : Char → Bool) (c d : Char) (ds : List Char)
    (hc : p c = true) (hd : p d = true) :
    splitRuns p (c :: d :: ds) = splitRuns p (d :: ds) := by
  conv_lhs => rw [splitRuns]
  rw [if_pos hc]
  show (if p d = true then splitRuns p (d :: ds) else [] :: splitRuns p (d :: ds)) = _
  rw [if_pos hd]

theorem splitRuns_pn (p : Char → Bool) (c d : Char) (ds : List Char)
    (hc : p c = true) (hd : p d = false) :
    splitRuns p (c :: d :: ds) = [] :: splitRuns p (d :: ds) := by
  conv_lhs => rw [splitRuns]
  rw [if_pos hc]
  show (if p d = true then splitRuns p (d :: ds) else [] :: splitRuns p (d :: ds)) = _
  rw [hd]
  simp

theorem splitRuns_n (p : Char → Bool) (c : Char) (cs h : List Char)
    (t : List (List Char)) (hc : p c = false) (hr : splitRuns p cs = h :: t) :
    splitRuns p (c :: cs) = (c :: h) :: t := by
  rcases cs with _ | ⟨d, ds⟩
  · rw [show splitRuns p ([] : List Char) = [[]] from rfl] at hr
    injection hr with h1 h2
    subst h1
    subst h2
    simp [splitRuns, hc]
  · conv_lhs => rw [splitRuns]
    rw [if_neg (by simp [hc])]
    rw [hr]

theorem splitRuns_length_two (p : Char → Bool) :
    ∀ (cs : List Char) (c : Char), p c = true → 2 ≤ (splitRuns p (c :: cs)).length := by
  intro cs
  induction cs with
  | nil => intro c hc; simp [splitRuns, hc]
  | cons d ds ih =>
    intro c hc
    by_cases hd : p d
    · rw [splitRuns_pp p c d ds hc hd]
      exact ih d hd
    · rw [splitRuns_pn p c d ds hc (by simpa using hd)]
      have h2 := splitRuns_length_pos p (d :: ds)
      simp only [List.length_cons]
      omega

theorem splitRuns_length_cons (p : Char → Bool) (c : Char) (cs : List Char) :
    (splitRuns p cs).length ≤ (splitRuns p (c :: cs)).length := by
  by_cases hc : p c
  · rcases cs with _ | ⟨d, ds⟩
    · simp [splitRuns, hc]
    · by_cases hd : p d <;> simp [splitRuns, hc, hd]
  · rcases hr : splitRuns p cs with _ | ⟨h, t⟩
    · exact absurd hr (splitRuns_ne_nil p cs)
    · simp [splitRuns, hc, hr]

theorem splitRuns_length_le_append (p : Char → Bool) :
    ∀ (x y : List Char), (splitRuns p y).length ≤ (splitRuns p (x ++ y)).length := by
  intro x y
  induction x with
  | nil => simp
  | cons c xs ih => exact le_trans ih (splitRuns_length_cons p c (xs ++ y))

theorem splitRuns_length_append_ws (p : Char → Bool) (d : Char) (b : List Char)
    (hd : p d = true) :
    ∀ l : List Char, (splitRuns p l).length ≤ (splitRuns p (l ++ d :: b)).length := by
  intro l
  induction l with
  | nil =>
    simp only [List.nil_append]
    exact splitRuns_length_pos p (d :: b)
  | cons c cs ih =>
    simp only [List.cons_append]
    by_cases hc : p c
    · rcases cs with _ | ⟨e, es⟩
      · simp only [List.nil_append]
        rw [splitRuns_pp p c d b hc hd]
        have h2 := splitRuns_length_two p b d hd
        have hl : (splitRuns p [c]).length = 2 := by simp [splitRuns, hc]
        omega
      · simp only [List.cons_append] at ih ⊢
        by_cases he : p e
        · rw [splitRuns_pp p c e es hc he, splitRuns_pp p c e (es ++ d :: b) hc he]
          exact ih
        · rw [splitRuns_pn p c e es hc (by simpa using he),
            splitRuns_pn p c e (es ++ d :: b) hc (by simpa using he)]
          simpa using ih
    · rcases hr : splitRuns p cs with _ | ⟨h, t⟩
      · exact absurd hr (splitRuns_ne_nil p cs)
      · rcases hr2 : splitRuns p (cs ++ d :: b) with _ | ⟨h2, t2⟩
        · exact absurd hr2 (splitRuns_ne_nil p (cs ++ d :: b))
        · rw [splitRuns_n p c cs h t (by simpa using hc) hr,
            splitRuns_n p c (cs ++ d :: b) h2 t2 (by simpa using hc) hr2]
          have h3 := ih
          rw [hr, hr2] at h3
          simpa using h3

theorem jsWords_le_append_right (a b : String) :
    jsWords b ≤ jsWords (a ++ " " ++ b) := by
  unfold jsWords
  rw [show (a ++ " " ++ b).data = (a.data ++ [' ']) ++ b.data from by
    rw [String.data_append, String.data_append]]
  exact splitRuns_length_le_append isJsWs (a.data ++ [' ']) b.data

theorem jsWords_le_append_left (a b : String) :
    jsWords a ≤ jsWords (a ++ " " ++ b) := by
  unfold jsWords
  rw [show (a ++ " " ++ b).data = a.data ++ ' ' :: b.data from by
    rw [String.data_append, String.data_append]; simp]
  exact splitRuns_length_append_ws isJsWs ' ' b.data (by decide) a.data

theorem ne_empty_of_two_le_jsWords {s : String} (h : 2 ≤ jsWords s) : s ≠ "" := by
  intro he
  subst he
  have : jsWords "" = 1 := rfl
  omega

theorem mem_pushIf {x : String} (cc : String) {out : List String} (h : x ∈ out) :
    x ∈ pushIf cc out := by
  unfold pushIf
  by_cases hc : cc = ""
  · rwa [if_pos hc]
  · rw [if_neg hc]
    exact List.mem_append_left _ h

theorem self_mem_pushIf {cc : String} (out : List String) (h : cc ≠ "") :
    cc ∈ pushIf cc out := by
  unfold pushIf
  rw [if_neg h]
  exact List.mem_append_right _ (List.mem_singleton.mpr rfl)

theorem packSentencesGo_mem_out (maxW : Nat) :
    ∀ (ss : List String) (sc : String) (out : List String) (x : String),
      x ∈ out → x ∈ packSentencesGo maxW ss sc out := by
  intro ss
  induction ss with
  | nil =>
    intro sc out x h
    simp only [packSentencesGo]
    exact mem_pushIf sc h
  | cons s rest ih =>
    intro sc out x h
    by_cases hf : jsWords (joinSp sc s) ≤ maxW
    · simp only [packSentencesGo, if_pos hf]
      exact ih _ _ _ h
    · simp only [packSentencesGo, if_neg hf]
      exact ih _ _ _ (mem_pushIf sc h)

theorem packSentencesGo_mem_carried (maxW : Nat) (hpos : 0 < maxW) :
    ∀ (ss : List String) (out : List String) (s : String),
      maxW < jsWords s → s ∈ packSentencesGo maxW ss s out := by
  intro ss
  induction ss with
  | nil =>
    intro out s hw
    have hs : s ≠ "" := ne_empty_of_two_le_jsWords (by omega)
    simp only [packSentencesGo]
    exact self_mem_pushIf out hs
  | cons s2 rest ih =>
    intro out s hw
    have hs : s ≠ "" := ne_empty_of_two_le_jsWords (by omega)
    have hpot : ¬ jsWords (joinSp s s2) ≤ maxW := by
      unfold joinSp
      rw [if_neg hs]
      have := jsWords_le_append_left s s2
      omega
    simp only [packSentencesGo, if_neg hpot]
    exact packSentencesGo_mem_out maxW rest s2 (pushIf s out) s (self_mem_pushIf out hs)

theorem packSentencesGo_mem (maxW : Nat) (hpos : 0 < maxW) :
    ∀ (ss : List String) (sc : String) (out : List String) (s : String),
      s ∈ ss → maxW < jsWords s → s ∈ packSentencesGo maxW ss sc out := by
  intro ss
  induction ss with
  | nil =>
    intro sc out s h
    exact absurd h (List.not_mem_nil s)
  | cons s0 rest ih =>
    intro sc out s hmem hw
    rcases List.mem_cons.mp hmem with heq | hmem2
    · subst heq
      have hs : s ≠ "" := ne_empty_of_two_le_jsWords (by omega)
      have hpot : ¬ jsWords (joinSp sc s) ≤ maxW := by
        unfold joinSp
        by_cases hsc : sc = ""
        · rw [if_pos hsc]; omega
        · rw [if_neg hsc]
          have := jsWords_le_append_right sc s
          omega
      simp only [packSentencesGo, if_neg hpot]
      exact packSentencesGo_mem_carried maxW hpos rest (pushIf sc out) s hw
    · by_cases hf : jsWords (joinSp sc s0) ≤ maxW
      · simp only [packSentencesGo, if_pos hf]
        exact ih _ _ _ hmem2 hw
      · simp only [packSentencesGo, if_neg hf]
        exact ih _ _ _ hmem2 hw

/-- Claim C3: for every markdown string and positive word budget,
`intelligentChunk` drops no content — the concatenated non-whitespace
content of the major sections (the pieces between the `\n---\n` separators,
which is all of the input's content apart from whitespace and the `---`
separator lines themselves) is a sublist of the concatenated content of the
returned chunks (the source's stale-`currentChunk` carryover can only
duplicate content, never lose it) — and an irreducible unit (a single
sentence of the sentence split) whose word count exceeds the budget is
emitted verbatim as its own oversized chunk by the sentence-packing stage
rather than truncated. -/
theorem C3_chunker_no_content_loss (markdown : String) (maxW : Nat) (hpos : 0 < maxW) :
    List.Sublist (contentJoin (jsSplitLit markdown "\n---\n"))
      (contentJoin (intelligentChunk markdown maxW)) ∧
    ∀ (para s : String), s ∈ splitSent para → maxW < jsWords s →
      s ∈ packSentences maxW para := by
  constructor
  · by_cases hmd : markdown = ""
    · subst hmd
      rw [show contentJoin (jsSplitLit "" "\n---\n") = [] from rfl]
      exact List.nil_sublist _
    · simp only [intelligentChunk, if_neg hmd]
      rw [contentJoin_filter_keep]
      exact chunkFold_sublist maxW (jsSplitLit markdown "\n---\n") []
  · intro para s hs hw
    exact packSentencesGo_mem maxW hpos (splitSent para) "" [] s hs hw

/-- Witness for C3 at `markdown = "a b c\n---\nd e"` with budget 1 and the
oversized sentence `"a b."` of `"a b. c d"`. -/
theorem C3_chunker_no_content_loss_witness :
    (0 < 1 ∧
     List.Sublist (contentJoin (jsSplitLit "a b c\n---\nd e" "\n---\n"))
       (contentJoin (intelligentChunk "a b c\n---\nd e" 1))) ∧
    ("a b." ∈ splitSent "a b. c d" ∧ 1 < jsWords "a b." ∧
     "a b." ∈ packSentences 1 "a b. c d") :=
  ⟨⟨Nat.one_pos, (C3_chunker_no_content_loss "a b c\n---\nd e" 1 Nat.one_pos).1⟩,
   ⟨by decide, by decide,
    (C3_chunker_no_content_loss "a b c\n---\nd e" 1 Nat.one_pos).2 "a b. c d" "a b."
      (by decide) (by decide)⟩⟩

/-! ### C8: determinism of `cleanHtml` across invocations

The only information carried from one `cleanHtml` invocation to the next is
the summarization-service singleton.  The lemmas below show the pipeline's
output depends on that state only through its `initialize`-resolved form,
which never changes again after the first resolution. -/

theorem ensureInit_settled (env : Env) (st1 : SummState)
    (h : st1.summarizer.isSome = true ∨ st1.initAttempted = true) :
    ensureInit env st1 = (st1, 0) := by
  unfold ensureInit
  rcases h with h | h
  · rw [if_pos h]
  · by_cases hs : st1.summarizer.isSome
    · rw [if_pos hs]
    · rw [if_neg hs, if_pos h]

theorem ensureInit_idem (env : Env) (st : SummState) :
    ensureInit env (ensureInit env st).1 = ((ensureInit env st).1, 0) := by
  apply ensureInit_settled
  unfold ensureInit
  by_cases hs : st.summarizer.isSome
  · rw [if_pos hs]
    exact Or.inl hs
  · rw [if_neg hs]
    by_cases ha : st.initAttempted
    · rw [if_pos ha]
      exact Or.inr ha
    · rw [if_neg ha]
      rcases hd : doInitGo env summModels 0 with ⟨o, e⟩
      rcases o with _ | ⟨f, m⟩ <;> simp

theorem serviceSummarize_post (env : Env) (st : SummState) (text : String)
    (p : SummParams) :
    (serviceSummarize env st text p).2 = (ensureInit env st).1 := by
  unfold serviceSummarize
  rcases hs : (ensureInit env st).1.summarizer with _ | f <;> simp [hs]

theorem intelligentSummarizationRun_post (env : Env) (st1 : SummState)
    (text : String) (tl : Int) (cls : ContentClassification)
    (h : (ensureInit env st1).1 = st1) :
    (intelligentSummarizationRun env st1 text tl cls).2.2 = st1 := by
  simp only [intelligentSummarizationRun]
  repeat' split
  all_goals simp only [serviceSummarize_post, h]

theorem intelligentSummarization_post (env : Env) (st : SummState) (text : String)
    (tl : Int) (cls : ContentClassification) :
    (ensureInit env (intelligentSummarization env st text tl cls).2.2).1 =
      (ensureInit env st).1 := by
  have hres : (ensureInit env (ensureInit env st).1).1 = (ensureInit env st).1 := by
    rw [ensureInit_idem]
  unfold intelligentSummarization
  by_cases h1 : text = "" ∨ (jsTrim text).length < 50
  · rw [if_pos h1]
  · rw [if_neg h1]
    by_cases h2 : tl < 10 ∨ 1000 < tl
    · rw [if_pos h2]
    · rw [if_neg h2]
      rcases hs : (ensureInit env st).1.summarizer with _ | f
      · simp only [hs]
        exact hres
      · simp only [hs]
        rw [intelligentSummarizationRun_post env _ text tl cls hres]
        exact hres

theorem intelligentSummarization_inv (env : Env) (st st2 : SummState)
    (text : String) (tl : Int) (cls : ContentClassification)
    (h : (ensureInit env st).1 = (ensureInit env st2).1) :
    (intelligentSummarization env st text tl cls).1 =
      (intelligentSummarization env st2 text tl cls).1 := by
  simp only [intelligentSummarization]
  by_cases h1 : text = "" ∨ (jsTrim text).length < 50
  · rw [if_pos h1, if_pos h1]
  · rw [if_neg h1, if_neg h1]
    by_cases h2 : tl < 10 ∨ 1000 < tl
    · rw [if_pos h2, if_pos h2]
    · rw [if_neg h2, if_neg h2, ← h]
      rcases hs : (ensureInit env st).1.summarizer with _ | f <;> simp [hs]

theorem processSections_post (env : Env) (adaptive : Nat) :
    ∀ (secs : List String) (st : SummState),
      (ensureInit env (processSections env adaptive st secs).2.2).1 =
        (ensureInit env st).1 := by
  intro secs
  induction secs with
  | nil => intro st; rfl
  | cons sec rest ih =>
    intro st
    simp only [processSections]
    by_cases h1 : jsTrim sec = ""
    · rw [if_pos h1]
      exact ih st
    · rw [if_neg h1]
      by_cases hq : assessContentQuality (jsTrim sec) < 25
      · rw [if_pos hq]
        exact ih st
      · rw [if_neg hq]
        by_cases hd : (sectionDecision adaptive (assessContentQuality (jsTrim sec))
            (jsTrim sec)).1 = true
        · rw [if_pos hd]
          have hIpost := intelligentSummarization_post env st (jsTrim sec)
            (sectionDecision adaptive (assessContentQuality (jsTrim sec)) (jsTrim sec)).2
            (classifyContent env (jsTrim sec))
          rcases hA : intelligentSummarization env st (jsTrim sec)
              (sectionDecision adaptive (assessContentQuality (jsTrim sec)) (jsTrim sec)).2
              (classifyContent env (jsTrim sec)) with ⟨oA, elA, stA⟩
          rw [hA] at hIpost
          rcases oA with e | s
          · exact hIpost
          · rcases hP : processSections env adaptive stA rest with ⟨o2, el2, st3⟩
            have hPpost := ih stA
            rw [hP] at hPpost
            simp only [hP]
            rcases o2 with e2 | outs <;> exact hPpost.trans hIpost
        · rw [if_neg hd]
          rcases hP : processSections env adaptive st rest with ⟨o2, el2, st3⟩
          have hPpost := ih st
          rw [hP] at hPpost
          rcases o2 with e2 | outs <;> exact hPpost

theorem processSections_inv (env : Env) (adaptive : Nat) :
    ∀ (secs : List String) (st st2 : SummState),
      (ensureInit env st).1 = (ensureInit env st2).1 →
      (processSections env adaptive st secs).1 =
        (processSections env adaptive st2 secs).1 := by
  intro secs
  induction secs with
  | nil => intro st st2 h; rfl
  | cons sec rest ih =>
    intro st st2 h
    simp only [processSections]
    by_cases h1 : jsTrim sec = ""
    · rw [if_pos h1, if_pos h1]
      exact ih st st2 h
    · rw [if_neg h1, if_neg h1]
      by_cases hq : assessContentQuality (jsTrim sec) < 25
      · rw [if_pos hq, if_pos hq]
        exact ih st st2 h
      · rw [if_neg hq, if_neg hq]
        by_cases hd : (sectionDecision adaptive (assessContentQuality (jsTrim sec))
            (jsTrim sec)).1 = true
        · rw [if_pos hd, if_pos hd]
          have hIinv := intelligentSummarization_inv env st st2 (jsTrim sec)
            (sectionDecision adaptive (assessContentQuality (jsTrim sec)) (jsTrim sec)).2
            (classifyContent env (jsTrim sec)) h
          have hIpostA := intelligentSummarization_post env st (jsTrim sec)
            (sectionDecision adaptive (assessContentQuality (jsTrim sec)) (jsTrim sec)).2
            (classifyContent env (jsTrim sec))
          have hIpostB := intelligentSummarization_post env st2 (jsTrim sec)
            (sectionDecision adaptive (assessContentQuality (jsTrim sec)) (jsTrim sec)).2
            (classifyContent env (jsTrim sec))
          rcases hA : intelligentSummarization env st (jsTrim sec)
              (sectionDecision adaptive (assessContentQuality (jsTrim sec)) (jsTrim sec)).2
              (classifyContent env (jsTrim sec)) with ⟨oA, elA, stA⟩
          rcases hB : intelligentSummarization env st2 (jsTrim sec)
              (sectionDecision adaptive (assessContentQuality (jsTrim sec)) (jsTrim sec)).2
              (classifyContent env (jsTrim sec)) with ⟨oB, elB, stB⟩
          rw [hA] at hIinv hIpostA
          rw [hB] at hIinv hIpostB
          have hO : oA = oB := hIinv
          subst hO
          have hReq : (ensureInit env stA).1 = (ensureInit env stB).1 := by
            rw [hIpostA, hIpostB, h]
          rcases oA with e | s
          · rfl
          · have hPinv := ih stA stB hReq
            rcases hPA : processSections env adaptive stA rest with ⟨o2A, el2A, st3A⟩
            rcases hPB : processSections env adaptive stB rest with ⟨o2B, el2B, st3B⟩
            rw [hPA] at hPinv
            rw [hPB] at hPinv
            have hO2 : o2A = o2B := hPinv
            subst hO2
            simp only [hPA, hPB]
            rcases o2A with e2 | outs <;> rfl
        · rw [if_neg hd, if_neg hd]
          have hPinv := ih st st2 h
          rcases hPA : processSections env adaptive st rest with ⟨o2A, el2A, st3A⟩
          rcases hPB : processSections env adaptive st2 rest with ⟨o2B, el2B, st3B⟩
          rw [hPA] at hPinv
          rw [hPB] at hPinv
          have hO2 : o2A = o2B := hPinv
          subst hO2
          rcases o2A with e2 | outs <;> rfl

theorem summarizeMarkdownGo_post (env : Env) (adaptive : Nat) (st : SummState)
    (secs : List String) :
    (ensureInit env (summarizeMarkdownGo env adaptive st secs).2.2).1 =
      (ensureInit env st).1 := by
  unfold summarizeMarkdownGo
  have hPpost := processSections_post env adaptive secs st
  rcases hP : processSections env adaptive st secs with ⟨o, el, st2⟩
  rw [hP] at hPpost
  rcases o with e | outs <;> exact hPpost

theorem summarizeMarkdownGo_inv (env : Env) (adaptive : Nat) (st st2 : SummState)
    (secs : List String) (h : (ensureInit env st).1 = (ensureInit env st2).1) :
    (summarizeMarkdownGo env adaptive st secs).1 =
      (summarizeMarkdownGo env adaptive st2 secs).1 := by
  unfold summarizeMarkdownGo
  have hPinv := processSections_inv env adaptive secs st st2 h
  rcases hPA : processSections env adaptive st secs with ⟨oA, elA, stA⟩
  rcases hPB : processSections env adaptive st2 secs with ⟨oB, elB, stB⟩
  rw [hPA] at hPinv
  rw [hPB] at hPinv
  have hO : oA = oB := hPinv
  subst hO
  rcases oA with e | outs <;> rfl

theorem summarizeMarkdown_post (env : Env) (st : SummState) (markdown : String)
    (maxw : Nat) :
    (ensureInit env (summarizeMarkdown env st markdown maxw).2.2).1 =
      (ensureInit env st).1 := by
  simp only [summarizeMarkdown]
  exact summarizeMarkdownGo_post env _ st _

theorem summarizeMarkdown_inv (env : Env) (st st2 : SummState) (markdown : String)
    (maxw : Nat) (h : (ensureInit env st).1 = (ensureInit env st2).1) :
    (summarizeMarkdown env st markdown maxw).1 =
      (summarizeMarkdown env st2 markdown maxw).1 := by
  simp only [summarizeMarkdown]
  exact summarizeMarkdownGo_inv env _ st st2 _ h

theorem cleanHtmlInner_post (env : Env) (st : SummState) (rawHtml url : String) :
    (ensureInit env (cleanHtmlInner env st rawHtml url).2).1 =
      (ensureInit env st).1 := by
  unfold cleanHtmlInner
  rcases hpre : cleanHtmlPre env rawHtml url with r | md3
  · rfl
  · have hS := summarizeMarkdown_post env st md3 700
    rcases hA : summarizeMarkdown env st md3 700 with ⟨o, el, st2⟩
    rw [hA] at hS
    simp only [hA]
    rcases o with e | out <;> exact hS

theorem cleanHtmlInner_inv (env : Env) (st st2 : SummState) (rawHtml url : String)
    (h : (ensureInit env st).1 = (ensureInit env st2).1) :
    (cleanHtmlInner env st rawHtml url).1 = (cleanHtmlInner env st2 rawHtml url).1 := by
  unfold cleanHtmlInner
  rcases hpre : cleanHtmlPre env rawHtml url with r | md3
  · rfl
  · have hSinv := summarizeMarkdown_inv env st st2 md3 700 h
    rcases hA : summarizeMarkdown env st md3 700 with ⟨oA, elA, stA⟩
    rcases hB : summarizeMarkdown env st2 md3 700 with ⟨oB, elB, stB⟩
    rw [hA] at hSinv
    rw [hB] at hSinv
    have hO : oA = oB := hSinv
    subst hO
    simp only [hA, hB]
    rcases oA with e | out <;> rfl

theorem cleanHtml_post (env : Env) (st : SummState) (rawHtml url : String) :
    (ensureInit env (cleanHtml env st rawHtml url).2).1 = (ensureInit env st).1 := by
  unfold cleanHtml
  have hI := cleanHtmlInner_post env st rawHtml url
  rcases hA : cleanHtmlInner env st rawHtml url with ⟨o, st2⟩
  rw [hA] at hI
  rcases o with e | out <;> exact hI

theorem cleanHtml_inv (env : Env) (st st2 : SummState) (rawHtml url : String)
    (h : (ensureInit env st).1 = (ensureInit env st2).1) :
    (cleanHtml env st rawHtml url).1 = (cleanHtml env st2 rawHtml url).1 := by
  unfold cleanHtml
  have hIinv := cleanHtmlInner_inv env st st2 rawHtml url h
  rcases hA : cleanHtmlInner env st rawHtml url with ⟨oA, stA⟩
  rcases hB : cleanHtmlInner env st2 rawHtml url with ⟨oB, stB⟩
  rw [hA] at hIinv
  rw [hB] at hIinv
  have hO : oA = oB := hIinv
  subst hO
  rcases oA with e | out <;> rfl

/-- Claim C8: with a deterministic (modelled) summarization backend, the
pipeline introduces no nondeterminism of its own: re-running `cleanHtml` on
the identical `(rawHtml, url)` input — whether from the service state the
first run left behind, or from any state whose resolved initialization agrees
with the original one — produces a byte-identical output. -/
theorem C8_clean_html_deterministic (env : Env) (st : SummState)
    (rawHtml url : String) :
    (cleanHtml env (cleanHtml env st rawHtml url).2 rawHtml url).1 =
      (cleanHtml env st rawHtml url).1 ∧
    ∀ st2 : SummState, (ensureInit env st2).1 = (ensureInit env st).1 →
      (cleanHtml env st2 rawHtml url).1 = (cleanHtml env st rawHtml url).1 := by
  constructor
  · exact cleanHtml_inv env _ st rawHtml url (cleanHtml_post env st rawHtml url)
  · intro st2 h2
    exact cleanHtml_inv env st2 st rawHtml url h2

/-- Witness for C8 at the trivial environment, an initialized service, and a
concrete input. -/
theorem C8_clean_html_deterministic_witness :
    (cleanHtml trivialEnv (cleanHtml trivialEnv stFail "" "u").2 "" "u").1 =
      (cleanHtml trivialEnv stFail "" "u").1 ∧
    (cleanHtml trivialEnv stFail "" "u").1 = (cleanHtml trivialEnv stFail "" "u").1 :=
  ⟨(C8_clean_html_deterministic trivialEnv stFail "" "u").1,
   (C8_clean_html_deterministic trivialEnv stFail "" "u").2 stFail rfl⟩

end CLImate
